import Mathlib

/-!
Verification of the WAChatBooker appointment engine against its specification.

The Python sources (`date_utils.py`, `models.py`, `bot_handler.py`) are embedded
shallowly: strings are `List Char` / `String`, the SQLAlchemy repository is a
`List Appointment` threaded explicitly, the wall clock (`datetime.now`) is an
injected `Now` record, and every regular expression of the source is realised by
a hand-rolled matcher implementing exactly the search/backtracking behaviour the
Python `re` module exhibits on the pattern in question (the relevant patterns
have no interesting backtracking beyond what is noted at each definition).

Modelling boundaries, stated once here: Python's `\d`, `\s`, `\w`, `str.lower`,
`str.strip` and `int()` also accept various non-ASCII code points (and `int()`
tolerates surrounding whitespace, a sign and digit-group underscores); all
inputs exercised by the specification and by this development are plain ASCII,
and the embedding fixes the ASCII meaning of each of these constructs.
-/

namespace WAChatBooker

/-- ASCII whitespace, the characters Python's `str.strip` and regex `\s`
recognise in the ASCII range. -/
def wsChar (c : Char) : Bool :=
  c == ' ' || c == '\t' || c == '\n' || c == '\r' || c == '\x0b' || c == '\x0c'

/-- Numeric value of a decimal digit character. -/
def digitVal (c : Char) : Nat := c.toNat - 48

/-- ASCII lowercasing, the fragment of Python's `str.lower` used here. -/
def lowerChar (c : Char) : Char :=
  if 65 ≤ c.toNat ∧ c.toNat ≤ 90 then Char.ofNat (c.toNat + 32) else c

/-- Python `str.strip()` (ASCII whitespace fragment). -/
def pyStrip (s : List Char) : List Char :=
  ((s.dropWhile wsChar).reverse.dropWhile wsChar).reverse

/-- A nonempty run of decimal digits with single underscores strictly between
digits — the digit-part grammar of a Python `int()` argument (PEP 515):
`digitsGo` continues after a first digit worth `acc`. -/
def digitsGo (acc : Nat) : List Char → Option Nat
  | [] => some acc
  | c :: rest =>
    if c.isDigit then digitsGo (10 * acc + digitVal c) rest
    else if c == '_' then
      match rest with
      | d :: rest2 => if d.isDigit then digitsGo (10 * acc + digitVal d) rest2 else none
      | [] => none
    else none

def digitsCore : List Char → Option Nat
  | [] => none
  | c :: rest => if c.isDigit then digitsGo (digitVal c) rest else none

/-- Python `int()` (ASCII fragment): surrounding whitespace is stripped, then
an optional single sign precedes a nonempty underscore-grouped digit run;
`none` where `int()` raises `ValueError`.  (Python additionally accepts
non-ASCII decimal digits and whitespace, outside this embedding's ASCII
alphabet.) -/
def pyInt (s : List Char) : Option Int :=
  match pyStrip s with
  | '+' :: rest => (digitsCore rest).map (fun n => (n : Int))
  | '-' :: rest => (digitsCore rest).map (fun n => -(n : Int))
  | rest => (digitsCore rest).map (fun n => (n : Int))

/-- Python `str.split(sep)` for a one-character separator. -/
def splitOnChar (sep : Char) : List Char → List (List Char)
  | [] => [[]]
  | c :: rest =>
    let r := splitOnChar sep rest
    if c == sep then [] :: r
    else
      match r with
      | [] => [[c]]
      | g :: gs => (c :: g) :: gs

/-- Zero-padded two-digit decimal rendering (Python `%02d`, `%d`, `%m`, `%H`,
`%M` for the values ≤ 99 that occur here). -/
def pad2 (n : Nat) : List Char := [Nat.digitChar (n / 10 % 10), Nat.digitChar (n % 10)]

/-- Zero-padded four-digit decimal rendering. -/
def pad4 (n : Nat) : List Char :=
  [Nat.digitChar (n / 1000 % 10), Nat.digitChar (n / 100 % 10),
   Nat.digitChar (n / 10 % 10), Nat.digitChar (n % 10)]

/-- `strftime('%Y')` on CPython/Linux: the year's decimal digits, unpadded. -/
def renderYear (y : Nat) : List Char := Nat.toDigits 10 y

/- ### Calendar arithmetic (the fragment of `datetime` the sources use) -/

/-- Gregorian leap-year rule, as implemented by Python's `datetime`. -/
def isLeap (y : Nat) : Bool := y % 4 == 0 && (y % 100 != 0 || y % 400 == 0)

def daysInMonth (y m : Nat) : Nat :=
  if m = 2 then (if isLeap y then 29 else 28)
  else if m = 4 ∨ m = 6 ∨ m = 9 ∨ m = 11 then 30
  else 31

/-- The argument ranges for which the `datetime(year, month, day)` constructor
does not raise `ValueError` (Python's `MINYEAR = 1`, `MAXYEAR = 9999`). -/
def datetimeValid (y m d : Nat) : Bool :=
  1 ≤ y && y ≤ 9999 && 1 ≤ m && m ≤ 12 && 1 ≤ d && d ≤ daysInMonth y m

def daysBeforeMonth (y m : Nat) : Nat :=
  ((List.range (m - 1)).map (fun i => daysInMonth y (i + 1))).sum

def daysBeforeYear (y : Nat) : Nat :=
  365 * (y - 1) + (y - 1) / 4 - (y - 1) / 100 + (y - 1) / 400

/-- Proleptic-Gregorian day number (Python's `datetime.toordinal`). -/
def toOrdinal (y m d : Nat) : Nat := daysBeforeYear y + daysBeforeMonth y m + d

/-- A date-time instant measured in minutes, for comparing `datetime` values. -/
def toMinutes (y m d h mi : Nat) : Nat := 1440 * toOrdinal y m d + 60 * h + mi

/-- The calendar day after (y, m, d) (what `+ timedelta(days=1)` does to the
date part of a valid `datetime`). -/
def nextDay (y m d : Nat) : Nat × Nat × Nat :=
  if d + 1 ≤ daysInMonth y m then (y, m, d + 1)
  else if m + 1 ≤ 12 then (y, m + 1, 1)
  else (y + 1, 1, 1)

/-- `datetime + timedelta(minutes=30)`, defined on valid instants; `none` when
the result would pass the end of year 9999, where Python raises
`OverflowError`. -/
def addMinutes30 (y m d h mi : Nat) : Option (Nat × Nat × Nat × Nat × Nat) :=
  let mi2 := mi + 30
  if mi2 < 60 then some (y, m, d, h, mi2)
  else if h + 1 < 24 then some (y, m, d, h + 1, mi2 - 60)
  else
    let (y2, m2, d2) := nextDay y m d
    if y2 ≤ 9999 then some (y2, m2, d2, 0, mi2 - 60) else none

/-- The injected wall clock (`datetime.now()`), per the specification's
"implicit global now" design note. -/
structure Now where
  year : Nat
  month : Nat
  day : Nat
  hour : Nat
  minute : Nat

def Now.ordinal (n : Now) : Nat := toOrdinal n.year n.month n.day

def Now.minutes (n : Now) : Nat := toMinutes n.year n.month n.day n.hour n.minute

/- ### date_utils.py -/

/-- Python's `$` in `re.match(r'^...$', s)` matches at the end of the string
or just before one trailing newline; equivalently, the anchored core is
matched against the string with one final `'\n'` removed. -/
def chompNL (s : List Char) : List Char :=
  match s.reverse with
  | c :: tl => if c == '\n' then tl.reverse else s
  | [] => s

/-- The core `(\d{2})-(\d{2})-(\d{4})` of `is_valid_date_format`'s anchored
regex, matched against the whole (chomped) string, together with the
`map(int, match.groups())` step. -/
def dateGroups : List Char → Option (Nat × Nat × Nat)
  | [a, b, s1, c, d, s2, e, f, g, h] =>
    if a.isDigit && b.isDigit && s1 == '-' && c.isDigit && d.isDigit && s2 == '-'
        && e.isDigit && f.isDigit && g.isDigit && h.isDigit then
      some (10 * digitVal a + digitVal b, 10 * digitVal c + digitVal d,
            1000 * digitVal e + 100 * digitVal f + 10 * digitVal g + digitVal h)
    else none
  | _ => none

/-- `re.match(r'^(\d{2})-(\d{2})-(\d{4})$', date_str)` with
`map(int, match.groups())`: `some (day, month, year)` exactly when the string
has the DD-MM-YYYY shape, optionally followed by one trailing newline
(`$` matches before it). -/
def matchDateFormat (s : List Char) : Option (Nat × Nat × Nat) :=
  dateGroups (chompNL s)

/-- `date_utils.is_valid_date_format`: format check, then the
`datetime(year, month, day)` constructor (`ValueError` → `False`), then
rejection of dates strictly before today. -/
def is_valid_date_format (now : Now) (date_str : String) : Bool :=
  match matchDateFormat date_str.data with
  | none => false
  | some (day, month, year) =>
    if datetimeValid year month day then
      decide (¬ toOrdinal year month day < now.ordinal)
    else false

/-- The core `([01]?[0-9]|2[0-3]):([0-5][0-9])` of `is_valid_time_format`'s
anchored regex, matched against the whole (chomped) string, with
`map(int, match.groups())`: a one- or two-digit hour (two-digit form bounded
by 23) and an exactly-two-digit minute ≤ 59. -/
def timeGroups : List Char → Option (Nat × Nat)
  | [h, s, m1, m2] =>
    if h.isDigit && s == ':' && m1.isDigit && decide (m1.toNat ≤ 53) && m2.isDigit then
      some (digitVal h, 10 * digitVal m1 + digitVal m2)
    else none
  | [h1, h2, s, m1, m2] =>
    if ((h1 == '0' || h1 == '1') && h2.isDigit
         || h1 == '2' && h2.isDigit && decide (h2.toNat ≤ 51))
        && s == ':' && m1.isDigit && decide (m1.toNat ≤ 53) && m2.isDigit then
      some (10 * digitVal h1 + digitVal h2, 10 * digitVal m1 + digitVal m2)
    else none
  | _ => none

/-- `re.match(r'^([01]?[0-9]|2[0-3]):([0-5][0-9])$', time_str)` with the group
values: as with the date, `$` also matches before one trailing newline. -/
def matchTimeFormat (s : List Char) : Option (Nat × Nat) :=
  timeGroups (chompNL s)

/-- `date_utils.is_valid_time_format`: format, business hours 9–16 as start
hour, minute exactly 0 or 30. -/
def is_valid_time_format (time_str : String) : Bool :=
  match matchTimeFormat time_str.data with
  | none => false
  | some (hour, minute) =>
    if hour < 9 || 17 ≤ hour then false
    else decide (minute = 0 ∨ minute = 30)

/-- `date_utils.is_valid_date_time`: both format checks, then the combined
instant must be strictly more than one hour in the future.  The `datetime`
constructor in the source cannot raise here because the format checks already
bound every component, and the re-parse by `split` recovers exactly the regex
group values: a string passing the anchored regex is the group shape with at
most one trailing newline, which lands in the last `split` part and is
stripped by `int()`. -/
def is_valid_date_time (now : Now) (date_str time_str : String) : Bool :=
  if !(is_valid_date_format now date_str) || !(is_valid_time_format time_str) then false
  else
    match matchDateFormat date_str.data, matchTimeFormat time_str.data with
    | some (day, month, year), some (hour, minute) =>
      decide (now.minutes + 60 < toMinutes year month day hour minute)
    | _, _ => false

/-- `day, month, year = map(int, date_str.split('-'))`: the three `int()`
values (possibly negative, via a sign the split part may carry); `none` on the
unpack or `int()` failures the source catches with its bare `except`. -/
def parseDateLoose (s : List Char) : Option (Int × Int × Int) :=
  match splitOnChar '-' s with
  | [a, b, c] => do
    let day ← pyInt a
    let month ← pyInt b
    let year ← pyInt c
    pure (day, month, year)
  | _ => none

/-- `hour, minute = map(int, time_str.split(':'))`, same conventions. -/
def parseTimeLoose (s : List Char) : Option (Int × Int) :=
  match splitOnChar ':' s with
  | [a, b] => do
    let h ← pyInt a
    let mi ← pyInt b
    pure (h, mi)
  | _ => none

/-- `datetime(year, month, day, hour, minute)` accepts the five parsed ints:
each is non-negative (else `ValueError`), the date is a real calendar date of
years 1–9999, the hour is below 24 and the minute below 60. -/
def ctorOK (day month year hour minute : Int) : Bool :=
  decide (0 ≤ day) && decide (0 ≤ month) && decide (0 ≤ year) && decide (0 ≤ hour)
    && decide (0 ≤ minute) && datetimeValid year.toNat month.toNat day.toNat
    && decide (hour.toNat < 24) && decide (minute.toNat < 60)

/-- `date_utils.get_next_time_slot`: parse, add 30 minutes, roll to next day
09:00 when the result reaches 17:00; any exception (unparseable input, invalid
`datetime` arguments, overflow past year 9999) is swallowed by the source's
bare `except`, returning the arguments unchanged. -/
def get_next_time_slot (date_str time_str : String) : String × String :=
  match parseDateLoose date_str.data, parseTimeLoose time_str.data with
  | some (day, month, year), some (hour, minute) =>
    if ctorOK day month year hour minute then
      match addMinutes30 year.toNat month.toNat day.toNat hour.toNat minute.toNat with
      | none => (date_str, time_str)
      | some (y2, m2, d2, h2, mi2) =>
        if 17 ≤ h2 then
          match nextDay y2 m2 d2 with
          | (y3, m3, d3) =>
            if y3 ≤ 9999 then
              (⟨pad2 d3 ++ '-' :: pad2 m3 ++ '-' :: renderYear y3⟩, ⟨pad2 9 ++ ':' :: pad2 0⟩)
            else (date_str, time_str)
        else (⟨pad2 d2 ++ '-' :: pad2 m2 ++ '-' :: renderYear y2⟩, ⟨pad2 h2 ++ ':' :: pad2 mi2⟩)
    else (date_str, time_str)
  | _, _ => (date_str, time_str)

/-- `strftime('%d-%m-%Y')` of a date, as `get_next_time_slot` renders it. -/
def render_date (y m d : Nat) : String := ⟨pad2 d ++ '-' :: pad2 m ++ '-' :: renderYear y⟩

/-- `strftime('%H:%M')` of a time. -/
def render_time (h mi : Nat) : String := ⟨pad2 h ++ ':' :: pad2 mi⟩

/- ### Unanchored regex pieces for `re.search` patterns -/

/-- The token `\d{2}-\d{2}-\d{4}` matched at the head of the input: the matched
characters and the remainder. -/
def pDate : List Char → Option (List Char × List Char)
  | a :: b :: s1 :: c :: d :: s2 :: e :: f :: g :: h :: rest =>
    if a.isDigit && b.isDigit && s1 == '-' && c.isDigit && d.isDigit && s2 == '-'
        && e.isDigit && f.isDigit && g.isDigit && h.isDigit then
      some ([a, b, s1, c, d, s2, e, f, g, h], rest)
    else none
  | _ => none

/-- The token `\d{1,2}:\d{2}` matched at the head of the input; the greedy
`{1,2}` takes two digits when the third character is the colon, else one. -/
def pTime : List Char → Option (List Char × List Char)
  | c1 :: c2 :: rest1 =>
    if c1.isDigit then
      if c2.isDigit then
        match rest1 with
        | s :: m1 :: m2 :: rest2 =>
          if s == ':' && m1.isDigit && m2.isDigit then
            some ([c1, c2, s, m1, m2], rest2)
          else none
        | _ => none
      else if c2 == ':' then
        match rest1 with
        | m1 :: m2 :: rest2 =>
          if m1.isDigit && m2.isDigit then some ([c1, c2, m1, m2], rest2) else none
        | _ => none
      else none
    else none
  | _ => none

/-- `\s+` at the head of the input, returning the remainder.  All the patterns
below follow `\s+` with a character no whitespace satisfies, so the greedy
maximal run is the only length the engine can accept and backtracking over it
is immaterial. -/
def pWS1 (s : List Char) : Option (List Char) :=
  if (s.takeWhile wsChar).isEmpty then none else some (s.dropWhile wsChar)

/-- One attempt of `(\d{2}-\d{2}-\d{4})\s+(\d{1,2}:\d{2})` at the current
position (`parse_cancel_message`, first alternative). -/
def matchCancelA (s : List Char) : Option (List Char × List Char) :=
  match pDate s with
  | none => none
  | some (d, r1) =>
    match pWS1 r1 with
    | none => none
    | some r2 =>
      match pTime r2 with
      | none => none
      | some (t, _) => some (d, t)

/-- One attempt of `(\d{2}-\d{2}-\d{4})\s+at\s+(\d{1,2}:\d{2})` at the current
position (`parse_cancel_message`, second alternative; run on the lowercased
message). -/
def matchCancelB (s : List Char) : Option (List Char × List Char) :=
  match pDate s with
  | none => none
  | some (d, r1) =>
    match pWS1 r1 with
    | none => none
    | some r2 =>
      match r2 with
      | c1 :: c2 :: r3 =>
        if c1 == 'a' && c2 == 't' then
          match pWS1 r3 with
          | none => none
          | some r4 =>
            match pTime r4 with
            | none => none
            | some (t, _) => some (d, t)
        else none
      | _ => none

/-- `re.search`: the match attempt at the leftmost position that succeeds. -/
def searchPair (f : List Char → Option (List Char × List Char)) :
    List Char → Option (List Char × List Char)
  | [] => f []
  | c :: tl =>
    match f (c :: tl) with
    | some r => some r
    | none => searchPair f tl

/-- The hour zero-padding applied to every extracted time token:
`if len(time_str.split(':')[0]) == 1: time_str = hour.zfill(2) + ':' + minute`.
Every token reaching this point has exactly one colon, so the two-way unpack
in the source cannot fail. -/
def padHour (t : List Char) : List Char :=
  match splitOnChar ':' t with
  | [h, m] => if h.length == 1 then ('0' :: h) ++ ':' :: m else t
  | _ => t

/-- `re.sub(r'^cancel\s+', '', message)`: strip one leading `cancel` token
together with the whitespace run after it (anchored, so at most one
replacement). -/
def stripCancelTok (s : List Char) : List Char :=
  match s with
  | c1 :: c2 :: c3 :: c4 :: c5 :: c6 :: rest =>
    if c1 == 'c' && c2 == 'a' && c3 == 'n' && c4 == 'c' && c5 == 'e' && c6 == 'l'
        && !(rest.takeWhile wsChar).isEmpty then
      rest.dropWhile wsChar
    else s
  | _ => s

/-- `date_utils.parse_cancel_message`: lowercase and strip, drop a leading
`cancel` token, then try the two patterns in order, zero-padding the hour of
the extracted time; `(None, None)` when neither pattern matches. -/
def parse_cancel_message (message : String) : Option String × Option String :=
  let msg := stripCancelTok (pyStrip (message.data.map lowerChar))
  match searchPair matchCancelA msg with
  | some (d, t) => (some ⟨d⟩, some ⟨padHour t⟩)
  | none =>
    match searchPair matchCancelB msg with
    | some (d, t) => (some ⟨d⟩, some ⟨padHour t⟩)
    | none => (none, none)

/- ### models.py -/

/-- The persisted `Appointment` row.  `created_at` is the injected creation
instant (`datetime.utcnow`), in minutes. -/
structure Appointment where
  id : Nat
  name : String
  phone_number : String
  date : String
  time : String
  status : String
  created_at : Nat
deriving Repr, DecidableEq

/-- The filter `filter_by(date=date, time=time, status='confirmed')`. -/
def slotTaken (date time : String) (a : Appointment) : Bool :=
  a.date == date && a.time == time && a.status == "confirmed"

/-- `Appointment.is_slot_available`.  `if exclude_id:` makes Python skip the
extra filter for `None` (and for the id 0, which no stored row carries since
autoincrement ids start at 1); no caller in the repository passes it. -/
def is_slot_available (appts : List Appointment) (date time : String)
    (exclude_id : Option Nat) : Bool :=
  let p : Appointment → Bool :=
    match exclude_id with
    | some i => if i ≠ 0 then fun a => slotTaken date time a && a.id != i
                else slotTaken date time
    | none => slotTaken date time
  (appts.find? p).isNone

/-- Strict lexicographic comparison of character lists by code point — the
order SQL's binary collation imposes on the stored ASCII `VARCHAR` values. -/
def listLexLt : List Char → List Char → Bool
  | [], [] => false
  | [], _ :: _ => true
  | _ :: _, [] => false
  | a :: as, b :: bs =>
    if a.toNat < b.toNat then true
    else if b.toNat < a.toNat then false
    else listLexLt as bs

def strLtb (a b : String) : Bool := listLexLt a.data b.data

/-- `ORDER BY date, time` over the `VARCHAR` columns: lexicographic string
comparison of the DD-MM-YYYY date, then of the HH:MM time. -/
def dateTimeLE (a b : Appointment) : Prop :=
  strLtb a.date b.date = true
  ∨ a.date = b.date ∧ (strLtb a.time b.time = true ∨ a.time = b.time)

instance : DecidableRel dateTimeLE := fun a b => by
  unfold dateTimeLE; infer_instance

/-- `Appointment.get_user_appointments`: confirmed rows of the phone number,
ordered by the string columns date then time (a stable sort models the
deterministic result order of the query). -/
def get_user_appointments (appts : List Appointment) (phone_number : String) :
    List Appointment :=
  List.insertionSort dateTimeLE
    (appts.filter (fun a => a.phone_number == phone_number && a.status == "confirmed"))

/-- `range(9, 17)`, the probed start hours. -/
def hourRange : List Nat := [9, 10, 11, 12, 13, 14, 15, 16]

/-- The inner loop of `find_next_available_slot`: probe `f"{hour:02d}:00"` for
each hour in order, returning the first available time. -/
def scanHours (appts : List Appointment) (date : String) : List Nat → Option String
  | [] => none
  | h :: rest =>
    if is_slot_available appts date (render_time h 0) none then some (render_time h 0)
    else scanHours appts date rest

/-- The outer loop of `find_next_available_slot`: after each day's scan the
source advances the date with `get_next_time_slot(current_date, "00:00")[0]`. -/
def scanDays (appts : List Appointment) : String → Nat → Option (String × String)
  | _, 0 => none
  | date, n + 1 =>
    match scanHours appts date hourRange with
    | some t => some (date, t)
    | none => scanDays appts (get_next_time_slot date "00:00").1 n

/-- `Appointment.find_next_available_slot`: 7 day iterations of the hourly
scan, `(None, None)` on exhaustion. -/
def find_next_available_slot (appts : List Appointment)
    (preferred_date preferred_time : String) : Option String × Option String :=
  match scanDays appts preferred_date 7 with
  | some (d, t) => (some d, some t)
  | none => (none, none)

/- ### bot_handler.py — booking-details extraction -/

/-- The literal `book` of pattern 1, matched case-insensitively at the current
position. -/
def matchBookCI : List Char → Option (List Char)
  | b :: o1 :: o2 :: k :: rest =>
    if lowerChar b == 'b' && lowerChar o1 == 'o' && lowerChar o2 == 'o' && lowerChar k == 'k'
    then some rest else none
  | _ => none

/-- The suffix `\s+(\d{2}-\d{2}-\d{4})\s+(\d{1,2}:\d{2})` of pattern 1 that
must follow the lazily captured name group. -/
def groupTail (s : List Char) : Option (List Char × List Char) :=
  match pWS1 s with
  | none => none
  | some r1 =>
    match pDate r1 with
    | none => none
    | some (d, r2) =>
      match pWS1 r2 with
      | none => none
      | some r3 =>
        match pTime r3 with
        | none => none
        | some (t, _) => some (d, t)

/-- The lazy group `(.+?)` of pattern 1: starting from a one-character group,
extend one character at a time until the remaining input matches `groupTail`;
shortest extension wins, as lazy repetition dictates.  Without `re.DOTALL`,
`.` cannot match a newline, so the group cannot extend across `'\n'`. -/
def lazyGroup : List Char → List Char → Option (List Char × List Char × List Char)
  | acc, tail =>
    match groupTail tail with
    | some (d, t) => some (acc.reverse, d, t)
    | none =>
      match tail with
      | [] => none
      | c :: tl => if c == '\n' then none else lazyGroup (c :: acc) tl

/-- The greedy `\s+` after `book` interacting with the lazy group: the engine
first commits the maximal whitespace run to `\s+`, and on failure backtracks
to shorter runs, letting the group start with whitespace.  `tryWS s w` tries
the run lengths `w, w-1, ..., 1`; a group cannot start on `'\n'` (`.` does
not match it). -/
def tryWS (s : List Char) : Nat → Option (List Char × List Char × List Char)
  | 0 => none
  | w + 1 =>
    match s.drop (w + 1) with
    | [] => tryWS s w
    | c :: tl =>
      if c == '\n' then tryWS s w
      else
        match lazyGroup [c] tl with
        | some r => some r
        | none => tryWS s w

/-- One attempt of pattern 1,
`book\s+(.+?)\s+(\d{2}-\d{2}-\d{4})\s+(\d{1,2}:\d{2})` (IGNORECASE), at the
current position: `(name group, date, time)`. -/
def matchP1At (s : List Char) : Option (List Char × List Char × List Char) :=
  match matchBookCI s with
  | none => none
  | some rest => tryWS rest (rest.takeWhile wsChar).length

/-- `re.search` for pattern 1: leftmost successful attempt. -/
def searchP1 : List Char → Option (List Char × List Char × List Char)
  | [] => matchP1At []
  | c :: tl =>
    match matchP1At (c :: tl) with
    | some r => some r
    | none => searchP1 tl

/-- `re.search(r'(\d{2}-\d{2}-\d{4})', message)` with the start offset of the
match (`date_match.start()`), for slicing `message[:date_match.start()]`. -/
def searchDateIdx (i : Nat) : List Char → Option (Nat × List Char)
  | [] => none
  | c :: tl =>
    match pDate (c :: tl) with
    | some (d, _) => some (i, d)
    | none => searchDateIdx (i + 1) tl

/-- `re.search(r'(\d{1,2}:\d{2})', message)`. -/
def searchTimeTok : List Char → Option (List Char)
  | [] => none
  | c :: tl =>
    match pTime (c :: tl) with
    | some (t, _) => some t
    | none => searchTimeTok tl

/-- `\w` of the word-boundary `\b`, ASCII fragment. -/
def isWordChar (c : Char) : Bool := c.isAlphanum || c == '_'

/-- Case-insensitive literal match of a (lowercase) filler word at the head of
the input, returning the remainder. -/
def ciMatch : List Char → List Char → Option (List Char)
  | [], s => some s
  | _ :: _, [] => none
  | p :: ps, c :: cs => if lowerChar c == p then ciMatch ps cs else none

/-- The alternatives of
`\b(book|appointment|for|my name is|i am|i'm|want to|need|on|at)\b`, in the
source's order. -/
def fillerWords : List (List Char) :=
  ["book".data, "appointment".data, "for".data, "my name is".data,
   "i am".data, "i\x27m".data, "want to".data, "need".data, "on".data, "at".data]

/-- The right word-boundary `\b` after a matched alternative: the remainder is
empty or starts with a non-word character. -/
def boundaryOK : List Char → Bool
  | [] => true
  | c :: _ => !isWordChar c

/-- At a position whose left word-boundary holds, the first alternative (in
order) matching here whose right boundary also holds — exactly the regex
engine's alternation behaviour inside `\b(...)\b`. -/
def firstFiller : List (List Char) → List Char → Option (List Char)
  | [], _ => none
  | w :: ws, s =>
    match ciMatch w s with
    | some rest => if boundaryOK rest then some rest else firstFiller ws s
    | none => firstFiller ws s

theorem ciMatch_length {p s r : List Char} (h : ciMatch p s = some r) :
    r.length + p.length = s.length := by
  induction p generalizing s with
  | nil =>
    simp only [ciMatch, Option.some.injEq] at h
    subst h; simp
  | cons c ps ih =>
    cases s with
    | nil => simp [ciMatch] at h
    | cons d ds =>
      simp only [ciMatch] at h
      split at h
      · have := ih h; simp only [List.length_cons]; omega
      · exact absurd h (by simp)

theorem firstFiller_length {ws : List (List Char)} {s r : List Char}
    (hne : ∀ w ∈ ws, w ≠ []) (h : firstFiller ws s = some r) : r.length < s.length := by
  induction ws with
  | nil => simp [firstFiller] at h
  | cons w ws ih =>
    simp only [firstFiller] at h
    split at h
    · rename_i rest hm
      have hlen := ciMatch_length hm
      have hwpos : 0 < w.length := List.length_pos.mpr (hne w (List.mem_cons_self _ _))
      split at h
      · rw [Option.some.injEq] at h
        subst h; omega
      · exact ih (fun x hx => hne x (List.mem_cons_of_mem _ hx)) h
    · exact ih (fun x hx => hne x (List.mem_cons_of_mem _ hx)) h

theorem fillerWords_ne_nil : ∀ w ∈ fillerWords, w ≠ [] := by decide

/-- `re.sub(r'\b(book|...|at)\b', '', text, flags=IGNORECASE)`: scan left to
right; where the left boundary holds (previous character absent or non-word),
delete the first matching alternative and continue after it (every alternative
ends in a word character, so the position after a deletion has a word
character on its left); else keep the character. -/
def removeFillers (prevWord : Bool) (s : List Char) : List Char :=
  match s with
  | [] => []
  | c :: tl =>
    if prevWord then c :: removeFillers (isWordChar c) tl
    else
      match hf : firstFiller fillerWords (c :: tl) with
      | some rest => removeFillers true rest
      | none => c :: removeFillers (isWordChar c) tl
termination_by s.length
decreasing_by
  · simp only [List.length_cons]; omega
  · exact firstFiller_length fillerWords_ne_nil hf
  · simp only [List.length_cons]; omega

theorem dropWhile_len_le (p : Char → Bool) (l : List Char) :
    (l.dropWhile p).length ≤ l.length := by
  induction l with
  | nil => simp [List.dropWhile]
  | cons c tl ih =>
    rw [List.dropWhile]
    split
    · simp only [List.length_cons]; omega
    · simp

/-- `re.sub(r'\s+', ' ', text)`: collapse each whitespace run to one space. -/
def collapseWS (s : List Char) : List Char :=
  match s with
  | [] => []
  | c :: tl =>
    if wsChar c then ' ' :: collapseWS (tl.dropWhile wsChar)
    else c :: collapseWS tl
termination_by s.length
decreasing_by
  · simp only [List.length_cons]
    exact Nat.lt_succ_of_le (dropWhile_len_le wsChar _)
  · simp only [List.length_cons]
    exact Nat.lt_succ_self _

/-- `bot_handler.extract_booking_details`: pattern 1 first (name taken
verbatim, stripped); else locate a date token and a time token anywhere,
derive the name from the text before the date by deleting filler words,
collapsing whitespace and stripping, and require at least two characters
(`if name and len(name) > 1`).  The extracted time is hour-zero-padded on
both paths. -/
def extract_booking_details (message : String) :
    Option String × Option String × Option String :=
  let msg := pyStrip message.data
  match searchP1 msg with
  | some (g, d, t) => (some ⟨pyStrip g⟩, some ⟨d⟩, some ⟨padHour t⟩)
  | none =>
    match searchDateIdx 0 msg, searchTimeTok msg with
    | some (i, d), some t =>
      let before := pyStrip (msg.take i)
      let name := pyStrip (collapseWS (removeFillers false before))
      if name ≠ [] ∧ 1 < name.length then (some ⟨name⟩, some ⟨d⟩, some ⟨padHour t⟩)
      else (none, none, none)
    | _, _ => (none, none, none)

/- ### bot_handler.py — the three operations and the dispatcher -/

/-- The repository state: the `appointments` table plus the autoincrement
counter. -/
structure DB where
  appts : List Appointment
  nextId : Nat
deriving Repr, DecidableEq

def emptyDB : DB := ⟨[], 1⟩

/-- The structured outcome of each handler (the sources render these as prose;
the reply text carries exactly the data recorded here). -/
inductive Reply where
  | bookClarify
  | bookInvalid (name : String)
  | bookConflictAlt (name date time next_date next_time : String)
  | bookConflictNone (name date time : String)
  | bookConfirmed (a : Appointment)
  | viewEmpty
  | viewList (apts : List Appointment)
  | cancelClarify
  | cancelNotFound (date time : String)
  | cancelCancelled (a : Appointment)
  | helpMsg
  | defaultMsg
deriving Repr, DecidableEq

/-- Python truthiness of an optional string (`if not name or ...`): `None` and
the empty string are falsy. -/
def pyTruthy : Option String → Bool
  | none => false
  | some s => !s.data.isEmpty

/-- `bot_handler.handle_appointment_booking`. -/
def handle_appointment_booking (now : Now) (message phone_number : String) (db : DB) :
    Reply × DB :=
  match extract_booking_details message with
  | (name?, date?, time?) =>
    if !pyTruthy name? || !pyTruthy date? || !pyTruthy time? then (.bookClarify, db)
    else
      let name := name?.getD ""
      let date := date?.getD ""
      let time := time?.getD ""
      if !is_valid_date_time now date time then (.bookInvalid name, db)
      else if !is_slot_available db.appts date time none then
        match find_next_available_slot db.appts date time with
        | (some nd, some nt) => (.bookConflictAlt name date time nd nt, db)
        | _ => (.bookConflictNone name date time, db)
      else
        let appt : Appointment :=
          ⟨db.nextId, name, phone_number, date, time, "confirmed", now.minutes⟩
        (.bookConfirmed appt, ⟨db.appts ++ [appt], db.nextId + 1⟩)

/-- The exact-match filter of the cancellation lookup,
`filter_by(phone_number=..., date=..., time=..., status='confirmed')`. -/
def cancelMatch (phone_number date time : String) (a : Appointment) : Bool :=
  a.phone_number == phone_number && a.date == date && a.time == time
    && a.status == "confirmed"

/-- `appointment.status = 'cancelled'` on the row `.first()` returned: the
first matching row's status is flipped, everything else untouched. -/
def cancelFirst (p : Appointment → Bool) : List Appointment → List Appointment
  | [] => []
  | a :: rest =>
    if p a then { a with status := "cancelled" } :: rest else a :: cancelFirst p rest

/-- `bot_handler.handle_cancel_appointment`. -/
def handle_cancel_appointment (message phone_number : String) (db : DB) : Reply × DB :=
  match parse_cancel_message message with
  | (date?, time?) =>
    if !pyTruthy date? || !pyTruthy time? then (.cancelClarify, db)
    else
      let date := date?.getD ""
      let time := time?.getD ""
      match db.appts.find? (cancelMatch phone_number date time) with
      | none => (.cancelNotFound date time, db)
      | some a =>
        (.cancelCancelled a,
         ⟨cancelFirst (cancelMatch phone_number date time) db.appts, db.nextId⟩)

/-- `bot_handler.handle_view_appointments`. -/
def handle_view_appointments (phone_number : String) (db : DB) : Reply × DB :=
  let apts := get_user_appointments db.appts phone_number
  if apts.isEmpty then (.viewEmpty, db) else (.viewList apts, db)

def listKeywords : List String :=
  ["my appointments", "appointments", "my bookings", "view appointments"]

def bookKeywords : List String := ["appointment", "schedule", "meeting"]

def helpKeywords : List String := ["help", "menu", "commands"]

/-- `needle in haystack` for strings (Python substring containment). -/
def beginsWith : List Char → List Char → Bool
  | [], _ => true
  | _ :: _, [] => false
  | p :: ps, c :: cs => p == c && beginsWith ps cs

def containsTok (needle : List Char) : List Char → Bool
  | [] => needle.isEmpty
  | c :: tl => beginsWith needle (c :: tl) || containsTok needle tl

/-- `bot_handler.handle_whatsapp_message`: strip, lowercase for routing, then
dispatch in the source's order (view / cancel / book / help / default). -/
def handle_whatsapp_message (now : Now) (message phone_number : String) (db : DB) :
    Reply × DB :=
  let msg := pyStrip message.data
  let ml := msg.map lowerChar
  if listKeywords.any (fun k => ml = k.data) then handle_view_appointments phone_number db
  else if beginsWith "cancel".data ml then handle_cancel_appointment ⟨msg⟩ phone_number db
  else if containsTok "book".data ml
      || bookKeywords.any (fun k => containsTok k.data ml) then
    handle_appointment_booking now ⟨msg⟩ phone_number db
  else if helpKeywords.any (fun k => ml = k.data) then (.helpMsg, db)
  else (.defaultMsg, db)

/-- One inbound message: its clock reading, text and sender. -/
structure Op where
  now : Now
  text : String
  phone_number : String

def stepDB (db : DB) (op : Op) : DB :=
  (handle_whatsapp_message op.now op.text op.phone_number db).2

/-- The repository state after a sequence of sequentially processed messages,
starting from the empty store. -/
def runOps (ops : List Op) : DB := ops.foldl stepDB emptyDB

/-- Slot exclusivity (specification §3): at most one Confirmed appointment per
(date, time) pair. -/
def slotExclusive (l : List Appointment) : Prop :=
  ∀ date time : String, l.countP (slotTaken date time) ≤ 1

/- ### Theorems -/

/-- A store in which every probed slot of 25-08-2025 is occupied while
26-08-2025 is entirely free. -/
def day0Booked : List Appointment :=
  ["09:00", "10:00", "11:00", "12:00", "13:00", "14:00", "15:00", "16:00"].map
    (fun t => ⟨1, "A", "p", "25-08-2025", t, "confirmed", 0⟩)

/-- C1: the claim (and §4.4 of the specification, and the source's own
comments `# Check next 7 days` / `# Move to next day`) requires the forward
search to probe 7 distinct calendar days.  The code never leaves the candidate
date: its day-advance step `get_next_time_slot(current_date, "00:00")[0]`
returns the same date (00:30 is before 17:00), so with the candidate day fully
booked and the entire next day free the search reports exhaustion instead of
returning (26-08-2025, 09:00). -/
theorem c1_forward_search_never_advances :
    find_next_available_slot day0Booked "25-08-2025" "10:00" = (none, none)
    ∧ is_slot_available day0Booked "26-08-2025" "09:00" none = true
    ∧ (get_next_time_slot "25-08-2025" "00:00").1 = "25-08-2025" := by
  refine ⟨?_, ?_, ?_⟩ <;> rfl

/-- C8: both extractors are total functions of the input text alone (they are
plain Lean functions of the message, with no state), and they signal failure
by all-empty results: the booking extractor yields either `(None, None, None)`
or three present fields, and the cancel extractor `(None, None)` or two
present fields — never an exception. -/
theorem c8_extractors_total (message : String) :
    (extract_booking_details message = (none, none, none)
      ∨ ∃ n d t, extract_booking_details message = (some n, some d, some t))
    ∧ (parse_cancel_message message = (none, none)
      ∨ ∃ d t, parse_cancel_message message = (some d, some t)) := by
  constructor
  · rcases h1 : searchP1 (pyStrip message.data) with _ | ⟨g, d, t⟩
    · rcases h2 : searchDateIdx 0 (pyStrip message.data) with _ | ⟨i, d⟩
      · simp only [extract_booking_details, h1, h2]
        exact Or.inl (by trivial)
      · rcases h3 : searchTimeTok (pyStrip message.data) with _ | t
        · simp only [extract_booking_details, h1, h2, h3]
          exact Or.inl (by trivial)
        · simp only [extract_booking_details, h1, h2, h3]
          split
          · exact Or.inr ⟨_, _, _, rfl⟩
          · exact Or.inl (by trivial)
    · simp only [extract_booking_details, h1]
      exact Or.inr ⟨_, _, _, rfl⟩
  · rcases h1 : searchPair matchCancelA (stripCancelTok (pyStrip (message.data.map lowerChar)))
      with _ | ⟨d, t⟩
    · rcases h2 : searchPair matchCancelB (stripCancelTok (pyStrip (message.data.map lowerChar)))
        with _ | ⟨d, t⟩
      · simp only [parse_cancel_message, h1, h2]
        exact Or.inl (by trivial)
      · simp only [parse_cancel_message, h1, h2]
        exact Or.inr ⟨_, _, rfl⟩
    · simp only [parse_cancel_message, h1]
      exact Or.inr ⟨_, _, rfl⟩

theorem charEq_of_toNat {a b : Char} (h : a.toNat = b.toNat) : a = b :=
  Char.ext (UInt32.ext h)

theorem listLexLt_conn : ∀ as bs : List Char,
    listLexLt as bs = false → listLexLt bs as = false → as = bs := by
  intro as
  induction as with
  | nil =>
    intro bs h1 _
    cases bs with
    | nil => rfl
    | cons b tl => simp [listLexLt] at h1
  | cons a tl ih =>
    intro bs h1 h2
    cases bs with
    | nil => simp [listLexLt] at h2
    | cons b bl =>
      simp only [listLexLt] at h1 h2
      by_cases hab : a.toNat < b.toNat
      · simp [hab] at h1
      · by_cases hba : b.toNat < a.toNat
        · simp [hba] at h2
        · have he : a = b := charEq_of_toNat (by omega)
          subst he
          simp [hab] at h1 h2
          rw [ih bl h1 h2]

theorem listLexLt_trans : ∀ as bs cs : List Char,
    listLexLt as bs = true → listLexLt bs cs = true → listLexLt as cs = true := by
  intro as
  induction as with
  | nil =>
    intro bs cs h1 h2
    cases bs with
    | nil => simp [listLexLt] at h1
    | cons b bl =>
      cases cs with
      | nil => simp [listLexLt] at h2
      | cons c cl => simp [listLexLt]
  | cons a tl ih =>
    intro bs cs h1 h2
    cases bs with
    | nil => simp [listLexLt] at h1
    | cons b bl =>
      cases cs with
      | nil => simp [listLexLt] at h2
      | cons c cl =>
        simp only [listLexLt] at h1 h2 ⊢
        rcases Nat.lt_trichotomy a.toNat b.toNat with hab | hab | hab
        · rcases Nat.lt_trichotomy b.toNat c.toNat with hbc | hbc | hbc
          · rw [if_pos (by omega)]
          · rw [if_pos (by omega)]
          · rw [if_neg (by omega), if_pos hbc] at h2
            exact absurd h2 (by simp)
        · have hae : a = b := charEq_of_toNat hab
          subst hae
          rw [if_neg (by omega), if_neg (by omega)] at h1
          rcases Nat.lt_trichotomy a.toNat c.toNat with hac | hac | hac
          · rw [if_pos hac]
          · rw [if_neg (by omega), if_neg (by omega)] at h2 ⊢
            exact ih bl cl h1 h2
          · rw [if_neg (by omega), if_pos hac] at h2
            exact absurd h2 (by simp)
        · rw [if_neg (by omega), if_pos hab] at h1
          exact absurd h1 (by simp)

theorem strLtb_conn {a b : String} (h1 : strLtb a b = false) (h2 : strLtb b a = false) :
    a = b := by
  cases a; cases b
  exact congrArg String.mk (listLexLt_conn _ _ h1 h2)

instance : IsTotal Appointment dateTimeLE := by
  constructor
  intro a b
  by_cases h1 : strLtb a.date b.date = true
  · exact Or.inl (Or.inl h1)
  by_cases h2 : strLtb b.date a.date = true
  · exact Or.inr (Or.inl h2)
  have hd : a.date = b.date :=
    strLtb_conn (Bool.not_eq_true _ ▸ h1) (Bool.not_eq_true _ ▸ h2)
  by_cases h3 : strLtb a.time b.time = true
  · exact Or.inl (Or.inr ⟨hd, Or.inl h3⟩)
  by_cases h4 : strLtb b.time a.time = true
  · exact Or.inr (Or.inr ⟨hd.symm, Or.inl h4⟩)
  have ht : a.time = b.time :=
    strLtb_conn (Bool.not_eq_true _ ▸ h3) (Bool.not_eq_true _ ▸ h4)
  exact Or.inl (Or.inr ⟨hd, Or.inr ht⟩)

instance : IsTrans Appointment dateTimeLE := by
  constructor
  intro a b c hab hbc
  rcases hab with h1 | ⟨h1, h1t⟩
  · rcases hbc with h2 | ⟨h2, _⟩
    · exact Or.inl (listLexLt_trans _ _ _ h1 h2)
    · exact Or.inl (h2 ▸ h1)
  · rcases hbc with h2 | ⟨h2, h2t⟩
    · exact Or.inl (h1 ▸ h2)
    · refine Or.inr ⟨h1.trans h2, ?_⟩
      rcases h1t with h3 | h3
      · rcases h2t with h4 | h4
        · exact Or.inl (listLexLt_trans _ _ _ h3 h4)
        · exact Or.inl (h4 ▸ h3)
      · rcases h2t with h4 | h4
        · exact Or.inl (h3 ▸ h4)
        · exact Or.inr (h3.trans h4)

/-- C5 counterexample: the listing is ordered by the raw DD-MM-YYYY strings,
in which the day field dominates, not by calendar date.  For one contact
holding confirmed appointments on 10-12-2025 and 05-01-2026 the query returns
the 05-01-2026 row first although its calendar date (proleptic-Gregorian day
number `toOrdinal 2026 1 5`) is the later one. -/
theorem c5_not_chronological :
    (get_user_appointments
        [⟨1, "A", "p", "10-12-2025", "10:00", "confirmed", 0⟩,
         ⟨2, "B", "p", "05-01-2026", "10:00", "confirmed", 0⟩] "p").map
        (fun a => a.date) = ["05-01-2026", "10-12-2025"]
    ∧ toOrdinal 2025 12 10 < toOrdinal 2026 1 5 := by
  constructor
  · rfl
  · decide

theorem slot_available_iff {l : List Appointment} {d t : String} :
    is_slot_available l d t none = true ↔ l.countP (slotTaken d t) = 0 := by
  simp only [is_slot_available, Option.isNone_iff_eq_none, List.find?_eq_none,
    List.countP_eq_zero]

theorem countP_cancelFirst_le (p q : Appointment → Bool)
    (hq : ∀ a : Appointment, q { a with status := "cancelled" } = false)
    (l : List Appointment) : (cancelFirst p l).countP q ≤ l.countP q := by
  induction l with
  | nil => simp [cancelFirst]
  | cons a tl ih =>
    rw [cancelFirst]
    split
    · rw [List.countP_cons, List.countP_cons, hq a]
      simp
    · rw [List.countP_cons, List.countP_cons]
      exact Nat.add_le_add_right ih _

theorem book_preserves (now : Now) (msg phone : String) (db : DB)
    (hex : slotExclusive db.appts) :
    slotExclusive ((handle_appointment_booking now msg phone db).2.appts) := by
  rcases he : extract_booking_details msg with ⟨n?, d?, t?⟩
  simp only [handle_appointment_booking, he]
  split
  · exact hex
  · split
    · exact hex
    · split
      · split
        · exact hex
        · exact hex
      · rename_i hval hav
        simp at hav
        intro d t
        rw [List.countP_append]
        set appt : Appointment :=
          ⟨db.nextId, n?.getD "", phone, d?.getD "", t?.getD "", "confirmed", now.minutes⟩
          with happt
        by_cases hq : slotTaken d t appt = true
        · have hz : db.appts.countP (slotTaken (d?.getD "") (t?.getD "")) = 0 :=
            slot_available_iff.mp hav
          have hdd : (d?.getD "" : String) = d ∧ (t?.getD "" : String) = t := by
            simp only [slotTaken, happt, Bool.and_eq_true, beq_iff_eq] at hq
            exact ⟨hq.1.1, hq.1.2⟩
          rw [hdd.1, hdd.2] at hz
          rw [hz, List.countP_cons, List.countP_nil, hq]
          simp
        · rw [Bool.not_eq_true] at hq
          rw [List.countP_cons, List.countP_nil, hq]
          simpa using hex d t

theorem cancel_preserves (msg phone : String) (db : DB) (hex : slotExclusive db.appts) :
    slotExclusive ((handle_cancel_appointment msg phone db).2.appts) := by
  rcases hp : parse_cancel_message msg with ⟨d?, t?⟩
  simp only [handle_cancel_appointment, hp]
  split
  · exact hex
  · split
    · exact hex
    · intro d t
      exact le_trans
        (countP_cancelFirst_le _ _ (fun a => by simp [slotTaken]) _) (hex d t)

theorem view_db (phone : String) (db : DB) :
    (handle_view_appointments phone db).2 = db := by
  simp only [handle_view_appointments]
  split <;> rfl

theorem step_preserves (op : Op) (db : DB) (hex : slotExclusive db.appts) :
    slotExclusive ((stepDB db op).appts) := by
  unfold stepDB
  simp only [handle_whatsapp_message]
  split
  · rw [view_db]; exact hex
  · split
    · exact cancel_preserves _ _ _ hex
    · split
      · exact book_preserves _ _ _ _ hex
      · split
        · exact hex
        · exact hex

theorem run_preserves (ops : List Op) :
    ∀ db, slotExclusive db.appts → slotExclusive ((ops.foldl stepDB db).appts) := by
  induction ops with
  | nil => intro db h; exact h
  | cons op ops ih =>
    intro db h
    exact ih _ (step_preserves op db h)

/-- C2: in every repository state reachable from the empty store by a sequence
of sequentially processed messages (Book, Cancel, List, and the help/unknown
no-ops), at most one Confirmed appointment exists per (date, time) pair: the
Book path appends a Confirmed row only after `is_slot_available` reports no
Confirmed row at that exact slot, and the Cancel path only turns a Confirmed
status into Cancelled. -/
theorem c2_slot_exclusivity (ops : List Op) : slotExclusive (runOps ops).appts :=
  run_preserves ops emptyDB (fun d t => by simp [emptyDB])

theorem cancelFirst_eq_set {p : Appointment → Bool} :
    ∀ {l : List Appointment} {a : Appointment}, l.find? p = some a →
      ∃ i, ∃ hi : i < l.length, l.get ⟨i, hi⟩ = a ∧ p a = true ∧
        cancelFirst p l = l.set i { a with status := "cancelled" } := by
  intro l
  induction l with
  | nil => intro a h; simp at h
  | cons b tl ih =>
    intro a h
    by_cases hb : p b = true
    · rw [List.find?_cons_of_pos _ hb] at h
      rw [Option.some.injEq] at h
      subst h
      refine ⟨0, by simp, rfl, hb, ?_⟩
      rw [cancelFirst, if_pos hb]
      rfl
    · rw [List.find?_cons_of_neg _ (by simpa using hb)] at h
      obtain ⟨i, hi, hget, hpa, heq⟩ := ih h
      refine ⟨i + 1, by simpa using Nat.succ_lt_succ hi, hget, hpa, ?_⟩
      rw [cancelFirst, if_neg hb, heq]
      rfl

theorem book_appts_struct (now : Now) (msg phone : String) (db : DB) :
    (handle_appointment_booking now msg phone db).2 = db ∨
    ∃ a : Appointment, a.status = "confirmed" ∧
      (handle_appointment_booking now msg phone db).2.appts = db.appts ++ [a] := by
  rcases he : extract_booking_details msg with ⟨n?, d?, t?⟩
  simp only [handle_appointment_booking, he]
  split
  · exact Or.inl rfl
  · split
    · exact Or.inl rfl
    · split
      · split
        · exact Or.inl rfl
        · exact Or.inl rfl
      · exact Or.inr ⟨_, rfl, rfl⟩

theorem cancel_struct (msg phone : String) (db : DB) :
    (handle_cancel_appointment msg phone db).2 = db ∨
    ∃ i, ∃ hi : i < db.appts.length, ∃ a : Appointment,
      (handle_cancel_appointment msg phone db).1 = Reply.cancelCancelled a ∧
      db.appts.get ⟨i, hi⟩ = a ∧ a.status = "confirmed" ∧
      (handle_cancel_appointment msg phone db).2.appts
        = db.appts.set i { a with status := "cancelled" } := by
  rcases hp : parse_cancel_message msg with ⟨d?, t?⟩
  simp only [handle_cancel_appointment, hp]
  split
  · exact Or.inl rfl
  · split
    · exact Or.inl rfl
    · rename_i a hfind
      obtain ⟨i, hi, hget, hpa, heq⟩ := cancelFirst_eq_set hfind
      refine Or.inr ⟨i, hi, a, rfl, hget, ?_, heq⟩
      simp only [cancelMatch, Bool.and_eq_true, beq_iff_eq] at hpa
      exact hpa.2

theorem step_struct (now : Now) (message phone_number : String) (db : DB) :
    (handle_whatsapp_message now message phone_number db).2.appts = db.appts ∨
    (∃ a : Appointment, a.status = "confirmed" ∧
      (handle_whatsapp_message now message phone_number db).2.appts = db.appts ++ [a]) ∨
    (∃ i, ∃ hi : i < db.appts.length, ∃ a : Appointment,
      (handle_whatsapp_message now message phone_number db).1 = Reply.cancelCancelled a ∧
      db.appts.get ⟨i, hi⟩ = a ∧ a.status = "confirmed" ∧
      (handle_whatsapp_message now message phone_number db).2.appts
        = db.appts.set i { a with status := "cancelled" }) := by
  simp only [handle_whatsapp_message]
  split
  · exact Or.inl (by rw [view_db])
  · split
    · rcases cancel_struct ⟨pyStrip message.data⟩ phone_number db
        with h | ⟨i, hi, a, h1, h2, h3, h4⟩
      · exact Or.inl (by rw [h])
      · exact Or.inr (Or.inr ⟨i, hi, a, h1, h2, h3, h4⟩)
    · split
      · rcases book_appts_struct now ⟨pyStrip message.data⟩ phone_number db
          with h | ⟨a, h1, h2⟩
        · exact Or.inl (by rw [h])
        · exact Or.inr (Or.inl ⟨a, h1, h2⟩)
      · split
        · exact Or.inl rfl
        · exact Or.inl rfl

/-- Pointwise persistence of stored rows: every already-present appointment
keeps its position, identity, name, contact, date, time and creation
timestamp, and its status either stays what it was or moves from Confirmed to
Cancelled. -/
def fieldsPreserved (l l2 : List Appointment) : Prop :=
  ∀ i, ∀ hi : i < l.length, ∃ hi2 : i < l2.length,
    ((l2.get ⟨i, hi2⟩).id = (l.get ⟨i, hi⟩).id ∧
     (l2.get ⟨i, hi2⟩).name = (l.get ⟨i, hi⟩).name ∧
     (l2.get ⟨i, hi2⟩).phone_number = (l.get ⟨i, hi⟩).phone_number ∧
     (l2.get ⟨i, hi2⟩).date = (l.get ⟨i, hi⟩).date ∧
     (l2.get ⟨i, hi2⟩).time = (l.get ⟨i, hi⟩).time ∧
     (l2.get ⟨i, hi2⟩).created_at = (l.get ⟨i, hi⟩).created_at) ∧
    ((l2.get ⟨i, hi2⟩).status = (l.get ⟨i, hi⟩).status ∨
     ((l.get ⟨i, hi⟩).status = "confirmed" ∧ (l2.get ⟨i, hi2⟩).status = "cancelled"))

theorem fieldsPreserved_refl (l : List Appointment) : fieldsPreserved l l :=
  fun _ hi => ⟨hi, ⟨rfl, rfl, rfl, rfl, rfl, rfl⟩, Or.inl rfl⟩

theorem fieldsPreserved_trans {l1 l2 l3 : List Appointment}
    (h12 : fieldsPreserved l1 l2) (h23 : fieldsPreserved l2 l3) :
    fieldsPreserved l1 l3 := by
  intro i hi
  obtain ⟨hi2, hf12, hs12⟩ := h12 i hi
  obtain ⟨hi3, hf23, hs23⟩ := h23 i hi2
  refine ⟨hi3, ⟨hf23.1.trans hf12.1, hf23.2.1.trans hf12.2.1,
    hf23.2.2.1.trans hf12.2.2.1, hf23.2.2.2.1.trans hf12.2.2.2.1,
    hf23.2.2.2.2.1.trans hf12.2.2.2.2.1, hf23.2.2.2.2.2.trans hf12.2.2.2.2.2⟩, ?_⟩
  rcases hs12 with hs12 | ⟨hc12, hx12⟩
  · rcases hs23 with hs23 | ⟨hc23, hx23⟩
    · exact Or.inl (hs23.trans hs12)
    · exact Or.inr ⟨hs12 ▸ hc23, hx23⟩
  · rcases hs23 with hs23 | ⟨hc23, hx23⟩
    · exact Or.inr ⟨hc12, hs23.trans hx12⟩
    · rw [hx12] at hc23
      exact absurd hc23 (by decide)

theorem fieldsPreserved_append (l : List Appointment) (a : Appointment) :
    fieldsPreserved l (l ++ [a]) := by
  intro i hi
  have hi2 : i < (l ++ [a]).length := by
    rw [List.length_append]
    omega
  have hg : (l ++ [a]).get ⟨i, hi2⟩ = l.get ⟨i, hi⟩ := by
    rw [List.get_eq_getElem, List.get_eq_getElem, List.getElem_append_left]
  exact ⟨hi2, by rw [hg]; exact ⟨rfl, rfl, rfl, rfl, rfl, rfl⟩, by rw [hg]; exact Or.inl rfl⟩

theorem fieldsPreserved_set {l : List Appointment} {i : Nat} {a : Appointment}
    (hi : i < l.length) (ha : l.get ⟨i, hi⟩ = a) (hc : a.status = "confirmed") :
    fieldsPreserved l (l.set i { a with status := "cancelled" }) := by
  intro j hj
  have hj2 : j < (l.set i { a with status := "cancelled" }).length := by
    rw [List.length_set]
    exact hj
  by_cases hij : j = i
  · subst hij
    have hg : (l.set j { a with status := "cancelled" }).get ⟨j, hj2⟩
        = { a with status := "cancelled" } := by
      rw [List.get_eq_getElem, List.getElem_set_self]
    refine ⟨hj2, ?_, ?_⟩
    · rw [hg, ha]
      exact ⟨rfl, rfl, rfl, rfl, rfl, rfl⟩
    · rw [hg, ha]
      exact Or.inr ⟨hc, rfl⟩
  · have hg : (l.set i { a with status := "cancelled" }).get ⟨j, hj2⟩ = l.get ⟨j, hj⟩ := by
      rw [List.get_eq_getElem, List.get_eq_getElem, List.getElem_set_ne (Ne.symm hij)]
    exact ⟨hj2, by rw [hg]; exact ⟨rfl, rfl, rfl, rfl, rfl, rfl⟩, by rw [hg]; exact Or.inl rfl⟩

theorem step_fields (op : Op) (db : DB) :
    fieldsPreserved db.appts (stepDB db op).appts := by
  rcases step_struct op.now op.text op.phone_number db
    with h | ⟨a, _, h⟩ | ⟨i, hi, a, _, hget, hc, h⟩
  · unfold stepDB
    rw [h]
    exact fieldsPreserved_refl _
  · unfold stepDB
    rw [h]
    exact fieldsPreserved_append _ _
  · unfold stepDB
    rw [h]
    exact fieldsPreserved_set hi hget hc

theorem run_fields (ops : List Op) :
    ∀ db : DB, fieldsPreserved db.appts ((ops.foldl stepDB db).appts) := by
  induction ops with
  | nil => intro db; exact fieldsPreserved_refl _
  | cons op ops ih =>
    intro db
    exact fieldsPreserved_trans (step_fields op db) (ih (stepDB db op))

/-- C7: each processed message either leaves the stored rows unchanged,
appends one new Confirmed row, or — exactly when it returns a successful
cancellation — rewrites one stored Confirmed row to the same row with status
Cancelled, leaving every other row untouched; consequently, across any
sequence of operations, every stored appointment keeps its position, id, name,
contact, date, time and creation timestamp, no row is ever removed, and the
only status change is Confirmed to Cancelled. -/
theorem c7_frame_immutability :
    (∀ (now : Now) (message phone_number : String) (db : DB),
      (handle_whatsapp_message now message phone_number db).2.appts = db.appts ∨
      (∃ a : Appointment, a.status = "confirmed" ∧
        (handle_whatsapp_message now message phone_number db).2.appts = db.appts ++ [a]) ∨
      (∃ i, ∃ hi : i < db.appts.length, ∃ a : Appointment,
        (handle_whatsapp_message now message phone_number db).1 = Reply.cancelCancelled a ∧
        db.appts.get ⟨i, hi⟩ = a ∧ a.status = "confirmed" ∧
        (handle_whatsapp_message now message phone_number db).2.appts
          = db.appts.set i { a with status := "cancelled" }))
    ∧ (∀ (db : DB) (ops : List Op),
        fieldsPreserved db.appts ((ops.foldl stepDB db).appts)) :=
  ⟨step_struct, fun db ops => run_fields ops db⟩

theorem cancelMatch_slotTaken {phone d t : String} {a : Appointment}
    (h : cancelMatch phone d t a = true) : slotTaken d t a = true := by
  simp only [cancelMatch, Bool.and_eq_true, beq_iff_eq] at h
  simp only [slotTaken, Bool.and_eq_true, beq_iff_eq]
  exact ⟨⟨h.1.1.2, h.1.2⟩, h.2⟩

theorem countP_cancelFirst_zero {phone d t : String} :
    ∀ {l : List Appointment} {a : Appointment},
      l.countP (slotTaken d t) ≤ 1 →
      l.find? (cancelMatch phone d t) = some a →
      (cancelFirst (cancelMatch phone d t) l).countP (slotTaken d t) = 0 := by
  intro l
  induction l with
  | nil => intro a _ h; simp at h
  | cons b tl ih =>
    intro a hex hfind
    rw [List.countP_cons] at hex
    by_cases hb : cancelMatch phone d t b = true
    · have hbtaken : slotTaken d t b = true := cancelMatch_slotTaken hb
      rw [hbtaken, if_pos rfl] at hex
      have h1 : tl.countP (slotTaken d t) = 0 := by omega
      have hflip : slotTaken d t { b with status := "cancelled" } = false := by
        simp [slotTaken]
      rw [cancelFirst, if_pos hb, List.countP_cons, h1, hflip]
      simp
    · rw [List.find?_cons_of_neg _ hb] at hfind
      have hpos : 0 < tl.countP (slotTaken d t) :=
        List.countP_pos_iff.mpr ⟨a, List.mem_of_find?_eq_some hfind,
          cancelMatch_slotTaken (List.find?_some hfind)⟩
      have hbf : slotTaken d t b = false := by
        cases hsb : slotTaken d t b
        · rfl
        · rw [hsb, if_pos rfl] at hex
          omega
      have hex2 : tl.countP (slotTaken d t) ≤ 1 := by
        rw [hbf] at hex
        simpa using hex
      have hz := ih hex2 hfind
      rw [cancelFirst, if_neg hb, List.countP_cons, hbf, hz]
      simp

/-- C4: for every repository state honouring the slot-exclusivity contract of
specification §4.3/§5 (which, by the C2 invariant, includes every reachable
state), a Cancel request whose message parses to (date, time): if no Confirmed
row matches (contact, date, time) exactly, the handler returns "not found" and
leaves the store untouched; if one does, the handler flips exactly that row's
status to Cancelled, leaves everything else unchanged, reports the cancelled
record, and the slot-availability check for that (date, time) afterwards
returns true. -/
theorem c4_cancel_correct (db : DB) (phone_number msg dt tt : String)
    (hparse : parse_cancel_message msg = (some dt, some tt))
    (hdt : dt.data ≠ []) (htt : tt.data ≠ [])
    (hex : slotExclusive db.appts) :
    (db.appts.find? (cancelMatch phone_number dt tt) = none →
      handle_cancel_appointment msg phone_number db = (Reply.cancelNotFound dt tt, db))
    ∧ (∀ a, db.appts.find? (cancelMatch phone_number dt tt) = some a →
        (∃ i, ∃ hi : i < db.appts.length,
          db.appts.get ⟨i, hi⟩ = a ∧ cancelMatch phone_number dt tt a = true ∧
          (handle_cancel_appointment msg phone_number db).2.appts
            = db.appts.set i { a with status := "cancelled" })
        ∧ (handle_cancel_appointment msg phone_number db).1 = Reply.cancelCancelled a
        ∧ is_slot_available (handle_cancel_appointment msg phone_number db).2.appts
            dt tt none = true) := by
  have hcond : ¬((!pyTruthy (some dt) || !pyTruthy (some tt)) = true) := by
    simp [pyTruthy, List.isEmpty_eq_true, hdt, htt]
  constructor
  · intro hnone
    simp only [handle_cancel_appointment, hparse]
    rw [if_neg hcond]
    rw [Option.getD_some, Option.getD_some, hnone]
  · intro a hsome
    obtain ⟨i, hi, hget, hpa, heq⟩ := cancelFirst_eq_set hsome
    simp only [handle_cancel_appointment, hparse]
    rw [if_neg hcond, Option.getD_some, Option.getD_some, hsome]
    exact ⟨⟨i, hi, hget, hpa, heq⟩, rfl,
      slot_available_iff.mpr (countP_cancelFirst_zero (hex dt tt) hsome)⟩

def c4db : DB := ⟨[⟨1, "John", "+1", "25-08-2025", "14:30", "confirmed", 0⟩], 2⟩

theorem c4_cancel_correct_witness :
    parse_cancel_message "Cancel 25-08-2025 14:30" = (some "25-08-2025", some "14:30")
    ∧ c4db.appts.find? (cancelMatch "+1" "25-08-2025" "14:30")
        = some ⟨1, "John", "+1", "25-08-2025", "14:30", "confirmed", 0⟩
    ∧ ((∃ i, ∃ hi : i < c4db.appts.length,
          c4db.appts.get ⟨i, hi⟩ = ⟨1, "John", "+1", "25-08-2025", "14:30", "confirmed", 0⟩ ∧
          cancelMatch "+1" "25-08-2025" "14:30"
            ⟨1, "John", "+1", "25-08-2025", "14:30", "confirmed", 0⟩ = true ∧
          (handle_cancel_appointment "Cancel 25-08-2025 14:30" "+1" c4db).2.appts
            = c4db.appts.set i
                ⟨1, "John", "+1", "25-08-2025", "14:30", "cancelled", 0⟩)
        ∧ (handle_cancel_appointment "Cancel 25-08-2025 14:30" "+1" c4db).1
            = Reply.cancelCancelled ⟨1, "John", "+1", "25-08-2025", "14:30", "confirmed", 0⟩
        ∧ is_slot_available
            (handle_cancel_appointment "Cancel 25-08-2025 14:30" "+1" c4db).2.appts
            "25-08-2025" "14:30" none = true) :=
  ⟨rfl, rfl,
    (c4_cancel_correct c4db "+1" "Cancel 25-08-2025 14:30" "25-08-2025" "14:30"
      rfl (by decide) (by decide)
      (fun d t => List.countP_le_length _)).2
      ⟨1, "John", "+1", "25-08-2025", "14:30", "confirmed", 0⟩ rfl⟩

theorem isDigit_toNat {c : Char} : c.isDigit = true ↔ 48 ≤ c.toNat ∧ c.toNat ≤ 57 := by
  simp only [Char.isDigit, Bool.and_eq_true, decide_eq_true_eq]
  rfl

theorem digitChar_isDigit {k : Nat} (h : k ≤ 9) : (Nat.digitChar k).isDigit = true := by
  interval_cases k <;> decide

theorem digitChar_toNat {k : Nat} (h : k ≤ 9) : (Nat.digitChar k).toNat = 48 + k := by
  interval_cases k <;> decide

theorem digitVal_digitChar {k : Nat} (h : k ≤ 9) : digitVal (Nat.digitChar k) = k := by
  interval_cases k <;> decide

theorem digitChar_digitVal {c : Char} (h : c.isDigit = true) :
    Nat.digitChar (digitVal c) = c := by
  obtain ⟨h1, h2⟩ := isDigit_toNat.mp h
  apply charEq_of_toNat
  rw [digitChar_toNat (by unfold digitVal; omega)]
  unfold digitVal
  omega

theorem digitVal_le {c : Char} (h : c.isDigit = true) : digitVal c ≤ 9 := by
  obtain ⟨h1, h2⟩ := isDigit_toNat.mp h
  unfold digitVal
  omega

theorem dateGroups_iff {l : List Char} {dd mm yy : Nat} :
    dateGroups l = some (dd, mm, yy) ↔
      dd < 100 ∧ mm < 100 ∧ yy < 10000 ∧
        l = pad2 dd ++ '-' :: pad2 mm ++ '-' :: pad4 yy := by
  constructor
  · intro h
    rcases l with _ | ⟨a, l⟩; · simp [dateGroups] at h
    rcases l with _ | ⟨b, l⟩; · simp [dateGroups] at h
    rcases l with _ | ⟨s1, l⟩; · simp [dateGroups] at h
    rcases l with _ | ⟨c, l⟩; · simp [dateGroups] at h
    rcases l with _ | ⟨d, l⟩; · simp [dateGroups] at h
    rcases l with _ | ⟨s2, l⟩; · simp [dateGroups] at h
    rcases l with _ | ⟨e, l⟩; · simp [dateGroups] at h
    rcases l with _ | ⟨f, l⟩; · simp [dateGroups] at h
    rcases l with _ | ⟨g, l⟩; · simp [dateGroups] at h
    rcases l with _ | ⟨h10, l⟩; · simp [dateGroups] at h
    rcases l with _ | ⟨x, l⟩
    case cons.cons.cons.cons.cons.cons.cons.cons.cons.cons.cons =>
      simp [dateGroups] at h
    simp only [dateGroups] at h
    split at h
    case isFalse => exact absurd h (by simp)
    case isTrue hc =>
      rw [Option.some.injEq, Prod.mk.injEq, Prod.mk.injEq] at h
      obtain ⟨h1, h2, h3⟩ := h
      simp only [Bool.and_eq_true, beq_iff_eq] at hc
      obtain ⟨⟨⟨⟨⟨⟨⟨⟨⟨ha, hb⟩, hs1⟩, hcc⟩, hdd⟩, hs2⟩, hee⟩, hff⟩, hgg⟩, hhh⟩ := hc
      have va := digitVal_le ha
      have vb := digitVal_le hb
      have vc := digitVal_le hcc
      have vd := digitVal_le hdd
      have ve := digitVal_le hee
      have vf := digitVal_le hff
      have vg := digitVal_le hgg
      have vh := digitVal_le hhh
      subst hs1; subst hs2
      refine ⟨by omega, by omega, by omega, ?_⟩
      simp only [pad2, pad4, List.cons_append, List.nil_append, List.cons.injEq]
      refine ⟨?_, ?_, trivial, ?_, ?_, trivial, ?_, ?_, ?_, ?_, trivial⟩
      · rw [show dd / 10 % 10 = digitVal a by omega, digitChar_digitVal ha]
      · rw [show dd % 10 = digitVal b by omega, digitChar_digitVal hb]
      · rw [show mm / 10 % 10 = digitVal c by omega, digitChar_digitVal hcc]
      · rw [show mm % 10 = digitVal d by omega, digitChar_digitVal hdd]
      · rw [show yy / 1000 % 10 = digitVal e by omega, digitChar_digitVal hee]
      · rw [show yy / 100 % 10 = digitVal f by omega, digitChar_digitVal hff]
      · rw [show yy / 10 % 10 = digitVal g by omega, digitChar_digitVal hgg]
      · rw [show yy % 10 = digitVal h10 by omega, digitChar_digitVal hhh]
  · rintro ⟨hdd, hmm, hyy, rfl⟩
    have c1 := digitChar_isDigit (show dd / 10 % 10 ≤ 9 by omega)
    have c2 := digitChar_isDigit (show dd % 10 ≤ 9 by omega)
    have c3 := digitChar_isDigit (show mm / 10 % 10 ≤ 9 by omega)
    have c4 := digitChar_isDigit (show mm % 10 ≤ 9 by omega)
    have c5 := digitChar_isDigit (show yy / 1000 % 10 ≤ 9 by omega)
    have c6 := digitChar_isDigit (show yy / 100 % 10 ≤ 9 by omega)
    have c7 := digitChar_isDigit (show yy / 10 % 10 ≤ 9 by omega)
    have c8 := digitChar_isDigit (show yy % 10 ≤ 9 by omega)
    simp only [pad2, pad4, List.cons_append, List.nil_append, dateGroups,
      c1, c2, c3, c4, c5, c6, c7, c8, beq_self_eq_true, Bool.and_self, Bool.and_true,
      Bool.true_and, if_true, Option.some.injEq, Prod.mk.injEq]
    rw [digitVal_digitChar (by omega), digitVal_digitChar (by omega),
      digitVal_digitChar (by omega), digitVal_digitChar (by omega),
      digitVal_digitChar (by omega), digitVal_digitChar (by omega),
      digitVal_digitChar (by omega), digitVal_digitChar (by omega)]
    refine ⟨by omega, by omega, by omega⟩

theorem hourCond_of_lt {h : Nat} (hh : h < 24) :
    ((Nat.digitChar (h / 10 % 10) == '0' || Nat.digitChar (h / 10 % 10) == '1')
        && (Nat.digitChar (h % 10)).isDigit
      || Nat.digitChar (h / 10 % 10) == '2' && (Nat.digitChar (h % 10)).isDigit
        && decide ((Nat.digitChar (h % 10)).toNat ≤ 51)) = true := by
  have hd : (Nat.digitChar (h % 10)).isDigit = true := digitChar_isDigit (by omega)
  rcases Nat.lt_or_ge h 20 with h20 | h20
  · have h10 : h / 10 % 10 = h / 10 := by omega
    rcases (by omega : h / 10 = 0 ∨ h / 10 = 1) with he | he <;> rw [h10, he]
    · simp only [hd, Bool.and_true, Bool.or_eq_true, beq_iff_eq, Bool.and_eq_true,
        decide_eq_true_eq]
      exact Or.inl (Or.inl (by decide))
    · simp only [hd, Bool.and_true, Bool.or_eq_true, beq_iff_eq, Bool.and_eq_true,
        decide_eq_true_eq]
      exact Or.inl (Or.inr (by decide))
  · have h10 : h / 10 % 10 = 2 := by omega
    have h51 : (Nat.digitChar (h % 10)).toNat ≤ 51 := by
      rw [digitChar_toNat (by omega)]
      omega
    rw [h10]
    simp only [hd, h51, Bool.and_true, Bool.or_eq_true, beq_iff_eq, Bool.and_eq_true,
      decide_eq_true_eq, decide_True]
    exact Or.inr (by decide)

theorem timeGroups_iff {l : List Char} {h mi : Nat} :
    timeGroups l = some (h, mi) ↔
      mi < 60 ∧
        ((h ≤ 9 ∧ l = Nat.digitChar h :: ':' :: pad2 mi)
          ∨ (h < 24 ∧ l = pad2 h ++ ':' :: pad2 mi)) := by
  constructor
  · intro hm
    rcases l with _ | ⟨c1, l⟩; · simp [timeGroups] at hm
    rcases l with _ | ⟨c2, l⟩; · simp [timeGroups] at hm
    rcases l with _ | ⟨c3, l⟩; · simp [timeGroups] at hm
    rcases l with _ | ⟨c4, l⟩; · simp [timeGroups] at hm
    rcases l with _ | ⟨c5, l⟩
    · -- four characters: H:MM
      simp only [timeGroups] at hm
      split at hm
      case isFalse => exact absurd hm (by simp)
      case isTrue hc =>
        rw [Option.some.injEq, Prod.mk.injEq] at hm
        obtain ⟨h1, h2⟩ := hm
        simp only [Bool.and_eq_true, beq_iff_eq, decide_eq_true_eq] at hc
        obtain ⟨⟨⟨⟨hd1, hs⟩, hm1⟩, hm1b⟩, hm2⟩ := hc
        have v1 := digitVal_le hd1
        have vm1 := digitVal_le hm1
        have vm2 := digitVal_le hm2
        have vm1b : digitVal c3 ≤ 5 := by
          have := isDigit_toNat.mp hm1
          unfold digitVal
          omega
        subst hs
        refine ⟨by omega, Or.inl ⟨by omega, ?_⟩⟩
        simp only [pad2, List.cons.injEq]
        refine ⟨?_, trivial, ?_, ?_, trivial⟩
        · rw [← h1, digitChar_digitVal hd1]
        · rw [show mi / 10 % 10 = digitVal c3 by omega, digitChar_digitVal hm1]
        · rw [show mi % 10 = digitVal c4 by omega, digitChar_digitVal hm2]
    rcases l with _ | ⟨c6, l⟩
    case cons.cons.cons.cons.cons.cons =>
      simp [timeGroups] at hm
    -- five characters: HH:MM
    simp only [timeGroups] at hm
    split at hm
    case isFalse => exact absurd hm (by simp)
    case isTrue hc =>
      rw [Option.some.injEq, Prod.mk.injEq] at hm
      obtain ⟨h1, h2⟩ := hm
      simp only [Bool.and_eq_true, Bool.or_eq_true, beq_iff_eq, decide_eq_true_eq] at hc
      obtain ⟨⟨⟨⟨hhour, hs⟩, hm1⟩, hm1b⟩, hm2⟩ := hc
      have vm1 := digitVal_le hm1
      have vm2 := digitVal_le hm2
      have vm1b : digitVal c4 ≤ 5 := by
        have := isDigit_toNat.mp hm1
        unfold digitVal
        omega
      subst hs
      have hhb : c1.isDigit = true ∧ digitVal c1 ≤ 2 ∧ c2.isDigit = true ∧
          10 * digitVal c1 + digitVal c2 < 24 := by
        rcases hhour with ⟨h01, hd2⟩ | ⟨⟨h2c, hd2⟩, h51⟩
        · have hv2 := digitVal_le hd2
          rcases h01 with he | he <;> subst he
          · have h0 : digitVal '0' = 0 := by decide
            exact ⟨by decide, by decide, hd2, by omega⟩
          · have h0 : digitVal '1' = 1 := by decide
            exact ⟨by decide, by decide, hd2, by omega⟩
        · subst h2c
          have := isDigit_toNat.mp hd2
          have h0 : digitVal '2' = 2 := by decide
          refine ⟨by decide, by decide, hd2, ?_⟩
          have hvv : digitVal c2 = c2.toNat - 48 := rfl
          omega
      obtain ⟨hc1d, hc1v, hc2d, hlt⟩ := hhb
      have v2 := digitVal_le hc2d
      refine ⟨by omega, Or.inr ⟨by omega, ?_⟩⟩
      simp only [pad2, List.cons_append, List.nil_append, List.cons.injEq]
      refine ⟨?_, ?_, trivial, ?_, ?_, trivial⟩
      · rw [show h / 10 % 10 = digitVal c1 by omega, digitChar_digitVal hc1d]
      · rw [show h % 10 = digitVal c2 by omega, digitChar_digitVal hc2d]
      · rw [show mi / 10 % 10 = digitVal c4 by omega, digitChar_digitVal hm1]
      · rw [show mi % 10 = digitVal c5 by omega, digitChar_digitVal hm2]
  · rintro ⟨hmi, hca | hca⟩ <;> obtain ⟨hh, rfl⟩ := hca
    · have ch := digitChar_isDigit hh
      have cm1 := digitChar_isDigit (show mi / 10 % 10 ≤ 9 by omega)
      have cm2 := digitChar_isDigit (show mi % 10 ≤ 9 by omega)
      have cm1b : (Nat.digitChar (mi / 10 % 10)).toNat ≤ 53 := by
        rw [digitChar_toNat (by omega)]
        omega
      simp only [pad2, timeGroups, ch, cm1, cm2, cm1b, beq_self_eq_true,
        decide_True, Bool.and_self, Bool.and_true, Bool.true_and, if_true,
        Option.some.injEq, Prod.mk.injEq]
      rw [digitVal_digitChar (by omega), digitVal_digitChar (by omega),
        digitVal_digitChar (by omega)]
      exact ⟨rfl, by omega⟩
    · have chour := hourCond_of_lt hh
      have cm1 := digitChar_isDigit (show mi / 10 % 10 ≤ 9 by omega)
      have cm2 := digitChar_isDigit (show mi % 10 ≤ 9 by omega)
      have cm1b : (Nat.digitChar (mi / 10 % 10)).toNat ≤ 53 := by
        rw [digitChar_toNat (by omega)]
        omega
      simp only [pad2, List.cons_append, List.nil_append, timeGroups]
      rw [if_pos]
      · rw [Option.some.injEq, Prod.mk.injEq]
        rw [digitVal_digitChar (by omega), digitVal_digitChar (by omega),
          digitVal_digitChar (by omega), digitVal_digitChar (by omega)]
        exact ⟨by omega, by omega⟩
      · rw [chour]
        simp [cm1, cm2, cm1b]

theorem chompNL_cases (l : List Char) : chompNL l = l ∨ l = chompNL l ++ ['\n'] := by
  cases hr : l.reverse with
  | nil => exact Or.inl (by simp [chompNL, hr])
  | cons c tl =>
    have hl : l = tl.reverse ++ [c] := by
      have h2 := congrArg List.reverse hr
      simpa using h2
    by_cases hc : (c == '\n') = true
    · right
      have hcl : chompNL l = tl.reverse := by
        simp only [chompNL, hr]
        rw [if_pos hc]
      have hc2 : c = '\n' := by
        rw [beq_iff_eq] at hc
        exact hc
      rw [hcl, hl, hc2]
    · exact Or.inl (by
        simp only [chompNL, hr]
        rw [if_neg hc])

theorem chompNL_snoc_nl (x : List Char) : chompNL (x ++ ['\n']) = x := by
  unfold chompNL
  simp

theorem digitChar_ne_nl (n : Nat) : (Nat.digitChar n == '\n') = false := by
  rcases Nat.lt_or_ge n 16 with h | h
  · interval_cases n <;> rfl
  · have hne : n ≠ 0 ∧ n ≠ 1 ∧ n ≠ 2 ∧ n ≠ 3 ∧ n ≠ 4 ∧ n ≠ 5 ∧ n ≠ 6 ∧ n ≠ 7
        ∧ n ≠ 8 ∧ n ≠ 9 ∧ n ≠ 10 ∧ n ≠ 11 ∧ n ≠ 12 ∧ n ≠ 13 ∧ n ≠ 14 ∧ n ≠ 15 := by
      omega
    obtain ⟨e0, e1, e2, e3, e4, e5, e6, e7, e8, e9, ea, eb, ec, ed, ee, ef⟩ := hne
    have hstar : Nat.digitChar n = '*' := by
      unfold Nat.digitChar
      simp [e0, e1, e2, e3, e4, e5, e6, e7, e8, e9, ea, eb, ec, ed, ee, ef]
    rw [hstar]
    rfl

theorem chompNL_dateShape (dd mm yy : Nat) :
    chompNL (pad2 dd ++ '-' :: pad2 mm ++ '-' :: pad4 yy)
      = pad2 dd ++ '-' :: pad2 mm ++ '-' :: pad4 yy := by
  have hr : (pad2 dd ++ '-' :: pad2 mm ++ '-' :: pad4 yy).reverse
      = Nat.digitChar (yy % 10) :: (Nat.digitChar (yy / 10 % 10) ::
          Nat.digitChar (yy / 100 % 10) :: Nat.digitChar (yy / 1000 % 10) :: '-' ::
          Nat.digitChar (mm % 10) :: Nat.digitChar (mm / 10 % 10) :: '-' ::
          Nat.digitChar (dd % 10) :: [Nat.digitChar (dd / 10 % 10)]) := by
    simp [pad2, pad4]
  simp only [chompNL, hr]
  rw [if_neg (by simp [digitChar_ne_nl])]

theorem chompNL_timeShape1 (h mi : Nat) :
    chompNL (Nat.digitChar h :: ':' :: pad2 mi) = Nat.digitChar h :: ':' :: pad2 mi := by
  have hr : (Nat.digitChar h :: ':' :: pad2 mi).reverse
      = Nat.digitChar (mi % 10) :: (Nat.digitChar (mi / 10 % 10) :: ':' ::
          [Nat.digitChar h]) := by
    simp [pad2]
  simp only [chompNL, hr]
  rw [if_neg (by simp [digitChar_ne_nl])]

theorem chompNL_timeShape2 (h mi : Nat) :
    chompNL (pad2 h ++ ':' :: pad2 mi) = pad2 h ++ ':' :: pad2 mi := by
  have hr : (pad2 h ++ ':' :: pad2 mi).reverse
      = Nat.digitChar (mi % 10) :: (Nat.digitChar (mi / 10 % 10) :: ':' ::
          Nat.digitChar (h % 10) :: [Nat.digitChar (h / 10 % 10)]) := by
    simp [pad2]
  simp only [chompNL, hr]
  rw [if_neg (by simp [digitChar_ne_nl])]

theorem matchDateFormat_iff {l : List Char} {dd mm yy : Nat} :
    matchDateFormat l = some (dd, mm, yy) ↔
      dd < 100 ∧ mm < 100 ∧ yy < 10000 ∧
        (l = pad2 dd ++ '-' :: pad2 mm ++ '-' :: pad4 yy
          ∨ l = (pad2 dd ++ '-' :: pad2 mm ++ '-' :: pad4 yy) ++ ['\n']) := by
  unfold matchDateFormat
  constructor
  · intro h
    obtain ⟨h1, h2, h3, hsh⟩ := dateGroups_iff.mp h
    rcases chompNL_cases l with hcl | hcl
    · exact ⟨h1, h2, h3, Or.inl (by rw [← hcl, hsh])⟩
    · exact ⟨h1, h2, h3, Or.inr (by rw [hcl, hsh])⟩
  · rintro ⟨h1, h2, h3, rfl | rfl⟩
    · rw [chompNL_dateShape]
      exact dateGroups_iff.mpr ⟨h1, h2, h3, rfl⟩
    · rw [chompNL_snoc_nl]
      exact dateGroups_iff.mpr ⟨h1, h2, h3, rfl⟩

theorem matchTimeFormat_iff {l : List Char} {h mi : Nat} :
    matchTimeFormat l = some (h, mi) ↔
      mi < 60 ∧
        ((h ≤ 9 ∧ (l = Nat.digitChar h :: ':' :: pad2 mi
            ∨ l = (Nat.digitChar h :: ':' :: pad2 mi) ++ ['\n']))
          ∨ (h < 24 ∧ (l = pad2 h ++ ':' :: pad2 mi
            ∨ l = (pad2 h ++ ':' :: pad2 mi) ++ ['\n']))) := by
  unfold matchTimeFormat
  constructor
  · intro hm
    obtain ⟨hmi, hca⟩ := timeGroups_iff.mp hm
    refine ⟨hmi, ?_⟩
    rcases chompNL_cases l with hcl | hcl
    · rcases hca with ⟨hh, hsh⟩ | ⟨hh, hsh⟩
      · exact Or.inl ⟨hh, Or.inl (by rw [← hcl, hsh])⟩
      · exact Or.inr ⟨hh, Or.inl (by rw [← hcl, hsh])⟩
    · rcases hca with ⟨hh, hsh⟩ | ⟨hh, hsh⟩
      · exact Or.inl ⟨hh, Or.inr (by rw [hcl, hsh])⟩
      · exact Or.inr ⟨hh, Or.inr (by rw [hcl, hsh])⟩
  · rintro ⟨hmi, ⟨hh, rfl | rfl⟩ | ⟨hh, rfl | rfl⟩⟩
    · rw [chompNL_timeShape1]
      exact timeGroups_iff.mpr ⟨hmi, Or.inl ⟨hh, rfl⟩⟩
    · rw [chompNL_snoc_nl]
      exact timeGroups_iff.mpr ⟨hmi, Or.inl ⟨hh, rfl⟩⟩
    · rw [chompNL_timeShape2]
      exact timeGroups_iff.mpr ⟨hmi, Or.inr ⟨hh, rfl⟩⟩
    · rw [chompNL_snoc_nl]
      exact timeGroups_iff.mpr ⟨hmi, Or.inr ⟨hh, rfl⟩⟩

theorem valid_date_format_iff (now : Now) (ds : String) :
    is_valid_date_format now ds = true ↔
      ∃ day month year, matchDateFormat ds.data = some (day, month, year) ∧
        datetimeValid year month day = true ∧
        now.ordinal ≤ toOrdinal year month day := by
  cases hm : matchDateFormat ds.data with
  | none => simp [is_valid_date_format, hm]
  | some v =>
    obtain ⟨day, month, year⟩ := v
    simp only [is_valid_date_format, hm, Option.some.injEq, Prod.mk.injEq]
    constructor
    · intro h
      split at h
      · rw [decide_eq_true_eq] at h
        exact ⟨day, month, year, ⟨rfl, rfl, rfl⟩, by assumption, by omega⟩
      · exact absurd h (by simp)
    · rintro ⟨d2, m2, y2, ⟨rfl, rfl, rfl⟩, hv, hord⟩
      rw [if_pos hv, decide_eq_true_eq]
      omega

theorem valid_time_format_iff (ts : String) :
    is_valid_time_format ts = true ↔
      ∃ hour minute, matchTimeFormat ts.data = some (hour, minute) ∧
        9 ≤ hour ∧ hour ≤ 16 ∧ (minute = 0 ∨ minute = 30) := by
  cases hm : matchTimeFormat ts.data with
  | none => simp [is_valid_time_format, hm]
  | some v =>
    obtain ⟨hour, minute⟩ := v
    simp only [is_valid_time_format, hm, Option.some.injEq, Prod.mk.injEq]
    constructor
    · intro h
      split at h
      · exact absurd h (by simp)
      · rename_i hg
        rw [Bool.or_eq_true, decide_eq_true_eq, decide_eq_true_eq] at hg
        push_neg at hg
        rw [decide_eq_true_eq] at h
        exact ⟨hour, minute, ⟨rfl, rfl⟩, by omega, by omega, h⟩
    · rintro ⟨h2, m2, ⟨rfl, rfl⟩, h9, h16, hm30⟩
      rw [if_neg, decide_eq_true_eq]
      · exact hm30
      · rw [Bool.or_eq_true, decide_eq_true_eq, decide_eq_true_eq]
        push_neg
        omega

theorem valid_date_time_iff (now : Now) (ds ts : String) :
    is_valid_date_time now ds ts = true ↔
      is_valid_date_format now ds = true ∧ is_valid_time_format ts = true ∧
        ∃ day month year hour minute,
          matchDateFormat ds.data = some (day, month, year) ∧
          matchTimeFormat ts.data = some (hour, minute) ∧
          now.minutes + 60 < toMinutes year month day hour minute := by
  cases hmd : matchDateFormat ds.data with
  | none =>
    have hA : is_valid_date_format now ds = false := by
      rw [← Bool.not_eq_true, valid_date_format_iff]
      rintro ⟨d, m, y, heq, -, -⟩
      rw [hmd] at heq
      exact absurd heq (by simp)
    simp [is_valid_date_time, hA, hmd]
  | some vd =>
    obtain ⟨day, month, year⟩ := vd
    cases hmt : matchTimeFormat ts.data with
    | none =>
      have hB : is_valid_time_format ts = false := by
        rw [← Bool.not_eq_true, valid_time_format_iff]
        rintro ⟨h2, m2, heq, -⟩
        rw [hmt] at heq
        exact absurd heq (by simp)
      simp [is_valid_date_time, hB, hmt]
    | some vt =>
      obtain ⟨hour, minute⟩ := vt
      by_cases hA : is_valid_date_format now ds = true
      · by_cases hB : is_valid_time_format ts = true
        · simp only [is_valid_date_time, hA, hB, hmd, hmt, Bool.not_true,
            Bool.or_self, Bool.false_eq_true, if_false, decide_eq_true_eq,
            Option.some.injEq, Prod.mk.injEq]
          constructor
          · intro h
            exact ⟨trivial, trivial, day, month, year, hour, minute,
              by trivial, by trivial, h⟩
          · rintro ⟨-, -, d2, m2, y2, h2, mi2, ⟨rfl, rfl, rfl⟩, ⟨rfl, rfl⟩, hlt⟩
            exact hlt
        · rw [Bool.not_eq_true] at hB
          simp [is_valid_date_time, hB]
      · rw [Bool.not_eq_true] at hA
        simp [is_valid_date_time, hA]

/-- C3 (amended): the temporal validator accepts a (date string, time string)
pair exactly when the date is DD-MM-YYYY (two-digit day and month, four-digit
year) — optionally followed by one trailing newline, which the anchored
regex's `$` tolerates — denoting a calendar date Python's `datetime` accepts,
that date is not strictly before the current date, the time is H(H):MM (one-
or two-digit hour, two-digit minute), likewise optionally newline-terminated,
with hour between 9 and 16 and minute exactly 0 or 30, and the combined
instant lies strictly more than 60 minutes after `now`.  In particular a slot
exactly one hour ahead (the equality case of the strict comparison) is
rejected, a minute outside {0, 30} is rejected regardless of hour, and any
string not of the stated shapes — malformed input — is rejected (the total
function returns `false`).  The claim's "exactly DD-MM-YYYY" is refuted by
the trailing-newline case (`c3_trailing_newline_accepted`). -/
theorem c3_temporal_validator (now : Now) (ds ts : String) :
    is_valid_date_time now ds ts = true ↔
      ∃ day month year hour minute,
        (ds.data = pad2 day ++ '-' :: pad2 month ++ '-' :: pad4 year
          ∨ ds.data = (pad2 day ++ '-' :: pad2 month ++ '-' :: pad4 year) ++ ['\n']) ∧
        datetimeValid year month day = true ∧
        now.ordinal ≤ toOrdinal year month day ∧
        ((hour ≤ 9 ∧ (ts.data = Nat.digitChar hour :: ':' :: pad2 minute
            ∨ ts.data = (Nat.digitChar hour :: ':' :: pad2 minute) ++ ['\n']))
          ∨ (hour < 24 ∧ (ts.data = pad2 hour ++ ':' :: pad2 minute
            ∨ ts.data = (pad2 hour ++ ':' :: pad2 minute) ++ ['\n']))) ∧
        9 ≤ hour ∧ hour ≤ 16 ∧ (minute = 0 ∨ minute = 30) ∧
        now.minutes + 60 < toMinutes year month day hour minute := by
  rw [valid_date_time_iff]
  constructor
  · rintro ⟨hA, hB, day, month, year, hour, minute, hmd, hmt, hlt⟩
    obtain ⟨-, -, -, hshape⟩ := matchDateFormat_iff.mp hmd
    obtain ⟨hmi60, hhshape⟩ := matchTimeFormat_iff.mp hmt
    rw [valid_date_format_iff] at hA
    obtain ⟨d2, m2, y2, heq, hvalid, hord⟩ := hA
    rw [hmd, Option.some.injEq, Prod.mk.injEq, Prod.mk.injEq] at heq
    obtain ⟨rfl, rfl, rfl⟩ := heq
    rw [valid_time_format_iff] at hB
    obtain ⟨h2, mi2, heqt, h9, h16, hm30⟩ := hB
    rw [hmt, Option.some.injEq, Prod.mk.injEq] at heqt
    obtain ⟨rfl, rfl⟩ := heqt
    exact ⟨day, month, year, hour, minute, hshape, hvalid, hord, hhshape,
      h9, h16, hm30, hlt⟩
  · rintro ⟨day, month, year, hour, minute, hshape, hvalid, hord, hhshape,
      h9, h16, hm30, hlt⟩
    have hbounds : 1 ≤ year ∧ year ≤ 9999 ∧ 1 ≤ month ∧ month ≤ 12 ∧ 1 ≤ day
        ∧ day ≤ daysInMonth year month := by
      simpa [datetimeValid, Bool.and_eq_true, decide_eq_true_eq, and_assoc]
        using hvalid
    have hdim : daysInMonth year month ≤ 31 := by
      unfold daysInMonth
      split
      · split <;> omega
      · split <;> omega
    have hmd : matchDateFormat ds.data = some (day, month, year) :=
      matchDateFormat_iff.mpr ⟨by omega, by omega, by omega, hshape⟩
    have hmt : matchTimeFormat ts.data = some (hour, minute) :=
      matchTimeFormat_iff.mpr ⟨by omega, hhshape⟩
    refine ⟨?_, ?_, day, month, year, hour, minute, hmd, hmt, hlt⟩
    · rw [valid_date_format_iff]
      exact ⟨day, month, year, hmd, hvalid, hord⟩
    · rw [valid_time_format_iff]
      exact ⟨hour, minute, hmt, h9, h16, hm30⟩

/-- C3 counterexample: the claim requires the accepted date to be exactly
DD-MM-YYYY, but the source accepts a date with a trailing newline — `$` in
Python's `re.match` matches before a final newline and `int("9990\n")`
succeeds — so `is_valid_date_time("25-08-9990\n", "14:30")` is `True` (here
against the clock 25-08-2025 10:00) although the eleven-character date string
is not of the ten-character DD-MM-YYYY shape. -/
theorem c3_trailing_newline_accepted :
    is_valid_date_time ⟨2025, 8, 25, 10, 0⟩ "25-08-9990\n" "14:30" = true
    ∧ ∀ day month year : Nat,
        ("25-08-9990\n" : String).data
          ≠ pad2 day ++ '-' :: pad2 month ++ '-' :: pad4 year := by
  refine ⟨by decide, ?_⟩
  intro day month year h
  have hlen := congrArg List.length h
  simp [pad2, pad4] at hlen

theorem daysBeforeMonth_succ (y m : Nat) (h1 : 1 ≤ m) :
    daysBeforeMonth y (m + 1) = daysBeforeMonth y m + daysInMonth y m := by
  unfold daysBeforeMonth
  have hm : m + 1 - 1 = (m - 1) + 1 := by omega
  rw [hm, List.range_succ, List.map_append, List.sum_append]
  have hm2 : m - 1 + 1 = m := by omega
  simp [hm2]

theorem daysBeforeMonth_12 (y : Nat) :
    daysBeforeMonth y 12 + 31 = if isLeap y then 366 else 365 := by
  have hr : List.range 11 = [0, 1, 2, 3, 4, 5, 6, 7, 8, 9, 10] := rfl
  unfold daysBeforeMonth
  norm_num [hr, daysInMonth]
  cases h : isLeap y <;> simp

theorem daysBeforeYear_succ (y : Nat) (h : 1 ≤ y) :
    daysBeforeYear (y + 1) = daysBeforeYear y + (if isLeap y then 366 else 365) := by
  have hy : y + 1 - 1 = (y - 1) + 1 := by omega
  have hq4 : ((y - 1) + 1) / 4 = (y - 1) / 4 + if 4 ∣ (y - 1) + 1 then 1 else 0 :=
    Nat.succ_div _ _
  have hq100 : ((y - 1) + 1) / 100 = (y - 1) / 100 + if 100 ∣ (y - 1) + 1 then 1 else 0 :=
    Nat.succ_div _ _
  have hq400 : ((y - 1) + 1) / 400 = (y - 1) / 400 + if 400 ∣ (y - 1) + 1 then 1 else 0 :=
    Nat.succ_div _ _
  have hyy : (y - 1) + 1 = y := by omega
  rw [hyy] at hq4 hq100 hq400
  have hmono1 : (y - 1) / 100 ≤ (y - 1) / 4 :=
    Nat.div_le_div_left (by norm_num) (by norm_num)
  have hmono2 : (y - 1) / 400 ≤ (y - 1) / 100 :=
    Nat.div_le_div_left (by norm_num) (by norm_num)
  have hleap : isLeap y = true ↔ y % 4 = 0 ∧ (y % 100 ≠ 0 ∨ y % 400 = 0) := by
    simp [isLeap, Bool.and_eq_true, Bool.or_eq_true]
  unfold daysBeforeYear
  rw [hy, hyy, hq4, hq100, hq400]
  have hd4 : (4 ∣ y) ↔ y % 4 = 0 := Nat.dvd_iff_mod_eq_zero
  have hd100 : (100 ∣ y) ↔ y % 100 = 0 := Nat.dvd_iff_mod_eq_zero
  have hd400 : (400 ∣ y) ↔ y % 400 = 0 := Nat.dvd_iff_mod_eq_zero
  by_cases h4 : 4 ∣ y
  · rw [if_pos h4]
    by_cases h100 : 100 ∣ y
    · rw [if_pos h100]
      by_cases h400 : 400 ∣ y
      · rw [if_pos h400]
        have hl : isLeap y = true := hleap.mpr ⟨hd4.mp h4, Or.inr (hd400.mp h400)⟩
        rw [hl, if_pos rfl]
        omega
      · rw [if_neg h400]
        have hl : isLeap y = false := by
          rw [← Bool.not_eq_true, hleap]
          rw [hd100] at h100
          rw [hd400] at h400
          intro hc
          rcases hc.2 with hc2 | hc2
          · exact hc2 h100
          · exact h400 hc2
        rw [hl]
        simp only [if_false, Bool.false_eq_true]
        omega
    · rw [if_neg h100]
      have hl : isLeap y = true :=
        hleap.mpr ⟨hd4.mp h4, Or.inl (fun hc => h100 (hd100.mpr hc))⟩
      have h400 : ¬ 400 ∣ y := fun hc => h100 (dvd_trans (by norm_num) hc)
      rw [if_neg h400, hl, if_pos rfl]
      omega
  · have h100 : ¬ 100 ∣ y := fun hc => h4 (dvd_trans (by norm_num) hc)
    have h400 : ¬ 400 ∣ y := fun hc => h4 (dvd_trans (by norm_num) hc)
    rw [if_neg h4, if_neg h100, if_neg h400]
    have hl : isLeap y = false := by
      rw [← Bool.not_eq_true, hleap]
      intro hc
      rw [← hd4] at hc
      exact h4 hc.1
    rw [hl]
    simp only [Bool.false_eq_true, if_false]
    omega

theorem daysInMonth_pos (y m : Nat) : 1 ≤ daysInMonth y m := by
  unfold daysInMonth
  split
  · split <;> omega
  · split <;> omega

theorem toOrdinal_nextDay {y m d : Nat} (hv : datetimeValid y m d = true) :
    toOrdinal (nextDay y m d).1 (nextDay y m d).2.1 (nextDay y m d).2.2
      = toOrdinal y m d + 1
    ∧ ((nextDay y m d).1 ≤ 9999 →
        datetimeValid (nextDay y m d).1 (nextDay y m d).2.1 (nextDay y m d).2.2 = true) := by
  have hb : 1 ≤ y ∧ y ≤ 9999 ∧ 1 ≤ m ∧ m ≤ 12 ∧ 1 ≤ d ∧ d ≤ daysInMonth y m := by
    simpa [datetimeValid, Bool.and_eq_true, decide_eq_true_eq, and_assoc] using hv
  unfold nextDay
  split
  · constructor
    · show toOrdinal y m (d + 1) = toOrdinal y m d + 1
      unfold toOrdinal
      omega
    · intro hy
      have hy2 : y ≤ 9999 := hy
      show datetimeValid y m (d + 1) = true
      simp only [datetimeValid, Bool.and_eq_true, decide_eq_true_eq]
      refine ⟨⟨⟨⟨⟨by omega, by omega⟩, by omega⟩, by omega⟩, by omega⟩, by omega⟩
  · split
    · rename_i hd1 hm1
      have hdm : d = daysInMonth y m := by omega
      constructor
      · show toOrdinal y (m + 1) 1 = toOrdinal y m d + 1
        unfold toOrdinal
        rw [daysBeforeMonth_succ y m (by omega)]
        omega
      · intro hy
        have hy2 : y ≤ 9999 := hy
        have h1 := daysInMonth_pos y (m + 1)
        show datetimeValid y (m + 1) 1 = true
        simp only [datetimeValid, Bool.and_eq_true, decide_eq_true_eq]
        refine ⟨⟨⟨⟨⟨by omega, by omega⟩, by omega⟩, by omega⟩, by omega⟩, by omega⟩
    · rename_i hd1 hm1
      have hm12 : m = 12 := by omega
      subst hm12
      have hd31 : daysInMonth y 12 = 31 := by norm_num [daysInMonth]
      have hdm : d = 31 := by omega
      constructor
      · show toOrdinal (y + 1) 1 1 = toOrdinal y 12 d + 1
        unfold toOrdinal
        rw [daysBeforeYear_succ y (by omega)]
        have h12 := daysBeforeMonth_12 y
        have hbm1 : daysBeforeMonth (y + 1) 1 = 0 := by
          simp [daysBeforeMonth]
        rw [hbm1]
        omega
      · intro hy
        have hy2 : y + 1 ≤ 9999 := hy
        have h1 := daysInMonth_pos (y + 1) 1
        show datetimeValid (y + 1) 1 1 = true
        simp only [datetimeValid, Bool.and_eq_true, decide_eq_true_eq]
        refine ⟨⟨⟨⟨⟨by omega, by omega⟩, by omega⟩, by omega⟩, by omega⟩, by omega⟩

theorem datetimeValid_bounds {y m d : Nat} (h : datetimeValid y m d = true) :
    1 ≤ y ∧ y ≤ 9999 ∧ 1 ≤ m ∧ m ≤ 12 ∧ 1 ≤ d ∧ d ≤ daysInMonth y m := by
  simpa [datetimeValid, Bool.and_eq_true, decide_eq_true_eq, and_assoc] using h

theorem toOrdinal_nextDay_eq {y m d a b c : Nat} (hv : datetimeValid y m d = true)
    (h : nextDay y m d = (a, b, c)) :
    toOrdinal a b c = toOrdinal y m d + 1 ∧ (a ≤ 9999 → datetimeValid a b c = true) := by
  have hx := toOrdinal_nextDay hv
  rw [h] at hx
  exact hx

theorem nextDay_cases {y m d a b c : Nat} (hv : datetimeValid y m d = true)
    (h : nextDay y m d = (a, b, c)) :
    a = y ∨ (a = y + 1 ∧ m = 12 ∧ d = 31) := by
  have hb := datetimeValid_bounds hv
  unfold nextDay at h
  split at h
  · rw [Prod.mk.injEq, Prod.mk.injEq] at h
    exact Or.inl h.1.symm
  · split at h
    · rw [Prod.mk.injEq, Prod.mk.injEq] at h
      exact Or.inl h.1.symm
    · rename_i h1 h2
      have hm12 : m = 12 := by omega
      subst hm12
      have hd31 : daysInMonth y 12 = 31 := by norm_num [daysInMonth]
      rw [Prod.mk.injEq, Prod.mk.injEq] at h
      exact Or.inr ⟨h.1.symm, rfl, by omega⟩

theorem addMinutes30_none {y m d h mi : Nat} (hv : datetimeValid y m d = true)
    (hh : h < 24) (ham : addMinutes30 y m d h mi = none) :
    y = 9999 ∧ m = 12 ∧ d = 31 ∧ h = 23 := by
  have hb := datetimeValid_bounds hv
  unfold addMinutes30 at ham
  dsimp only at ham
  by_cases h60 : mi + 30 < 60
  · rw [if_pos h60] at ham
    exact absurd ham (by simp)
  · rw [if_neg h60] at ham
    by_cases h24 : h + 1 < 24
    · rw [if_pos h24] at ham
      exact absurd ham (by simp)
    · rw [if_neg h24] at ham
      rcases hnd : nextDay y m d with ⟨ny, nm, nd⟩
      rw [hnd] at ham
      dsimp only at ham
      by_cases hy : ny ≤ 9999
      · rw [if_pos hy] at ham
        exact absurd ham (by simp)
      · rcases nextDay_cases hv hnd with hcase | ⟨hcase, hm12, hd31⟩
        · omega
        · exact ⟨by omega, hm12, hd31, by omega⟩

theorem addMinutes30_some {y m d h mi y2 m2 d2 h2 mi2 : Nat}
    (hv : datetimeValid y m d = true) (hh : h < 24) (hmi : mi < 60)
    (ham : addMinutes30 y m d h mi = some (y2, m2, d2, h2, mi2)) :
    datetimeValid y2 m2 d2 = true ∧ h2 < 24 ∧ mi2 < 60 ∧
    toMinutes y2 m2 d2 h2 mi2 = toMinutes y m d h mi + 30 ∧
    (17 ≤ h2 → y2 = y ∧ m2 = m ∧ d2 = d ∧ 16 ≤ h) := by
  unfold addMinutes30 at ham
  dsimp only at ham
  by_cases h60 : mi + 30 < 60
  · rw [if_pos h60] at ham
    simp only [Option.some.injEq, Prod.mk.injEq] at ham
    obtain ⟨rfl, rfl, rfl, rfl, rfl⟩ := ham
    refine ⟨hv, by omega, by omega, ?_, fun h17 => ⟨rfl, rfl, rfl, by omega⟩⟩
    unfold toMinutes
    omega
  · rw [if_neg h60] at ham
    by_cases h24 : h + 1 < 24
    · rw [if_pos h24] at ham
      simp only [Option.some.injEq, Prod.mk.injEq] at ham
      obtain ⟨rfl, rfl, rfl, rfl, rfl⟩ := ham
      refine ⟨hv, by omega, by omega, ?_, fun h17 => ⟨rfl, rfl, rfl, by omega⟩⟩
      unfold toMinutes
      omega
    · rw [if_neg h24] at ham
      rcases hnd : nextDay y m d with ⟨ny, nm, nd⟩
      rw [hnd] at ham
      dsimp only at ham
      by_cases hy : ny ≤ 9999
      · rw [if_pos hy] at ham
        simp only [Option.some.injEq, Prod.mk.injEq] at ham
        obtain ⟨rfl, rfl, rfl, rfl, rfl⟩ := ham
        have hord := toOrdinal_nextDay_eq hv hnd
        refine ⟨hord.2 hy, by omega, by omega, ?_, fun h17 => absurd h17 (by omega)⟩
        unfold toMinutes
        rw [hord.1]
        omega
      · rw [if_neg hy] at ham
        exact absurd ham (by simp)

/-- The prediction C10 makes at an input whose time is 23:30 or later is
false: 30 minutes after (01-01-2025, 23:30) is midnight of 02-01-2025, the
resulting hour 0 is below 17 so the claim's exception clause does not apply,
yet the function returns the next calendar date, not "the same date". -/
theorem c10_midnight_crossing :
    get_next_time_slot "01-01-2025" "23:30" = ("02-01-2025", "00:00")
    ∧ toMinutes 2025 1 2 0 0 = toMinutes 2025 1 1 23 30 + 30
    ∧ ¬ 17 ≤ 0
    ∧ ("02-01-2025" : String) ≠ "01-01-2025" := by
  refine ⟨rfl, by decide, by decide, by decide⟩

theorem toNat_natCast (k : Nat) : ((k : Int)).toNat = k := rfl

/-- On 31-12-9999 a start time of 16:30 or later (990 minutes into the day)
is exactly when the 30-minute step yields hour ≥ 17 or crosses midnight, so
the successful additions keep the date and reach the rollover branch. -/
theorem addMinutes30_last_day {h mi y2 m2 d2 h2 mi2 : Nat} (hh : h < 24)
    (hmi : mi < 60) (h990 : 990 ≤ 60 * h + mi)
    (ham : addMinutes30 9999 12 31 h mi = some (y2, m2, d2, h2, mi2)) :
    y2 = 9999 ∧ m2 = 12 ∧ d2 = 31 ∧ 17 ≤ h2 := by
  unfold addMinutes30 at ham
  dsimp only at ham
  by_cases h60 : mi + 30 < 60
  · rw [if_pos h60] at ham
    simp only [Option.some.injEq, Prod.mk.injEq] at ham
    obtain ⟨rfl, rfl, rfl, rfl, rfl⟩ := ham
    exact ⟨rfl, rfl, rfl, by omega⟩
  · rw [if_neg h60] at ham
    by_cases h24 : h + 1 < 24
    · rw [if_pos h24] at ham
      simp only [Option.some.injEq, Prod.mk.injEq] at ham
      obtain ⟨rfl, rfl, rfl, rfl, rfl⟩ := ham
      exact ⟨rfl, rfl, rfl, by omega⟩
    · rw [if_neg h24] at ham
      rw [show nextDay 9999 12 31 = (10000, 1, 1) from by decide] at ham
      dsimp only at ham
      rw [if_neg (by omega)] at ham
      exact absurd ham (by simp)

/-- C10 (amended): for every parsed and constructor-valid (date, time) input
except on 31-12-9999 with time 16:30 or later — exactly the inputs where the
30-minute step reaches 17:00 or crosses midnight on the last representable
day, so Python's `datetime` arithmetic overflows and the bare `except`
returns the arguments unchanged (fourth clause) — `get_next_time_slot`
returns the instant 30 minutes later, which falls on the next calendar day
when the input time is 23:30 or later, except that when the resulting hour is
17 or greater it returns the calendar day after the resulting instant at
exactly 09:00; `get_next_time_slot(d, "00:00")` returns the same calendar
date (in canonical rendering) at 00:30; input on which the `int()` parse or
the `datetime` constructor fails is returned unchanged instead of raising;
and `int()`-tolerated spacing such as time `"9: 30"` is computed with (fifth
clause), not returned unchanged. -/
theorem c10_next_slot_thirty_minutes :
    (∀ (ds ts : String) (day month year hour minute : Nat),
      parseDateLoose ds.data = some (↑day, ↑month, ↑year) →
      parseTimeLoose ts.data = some (↑hour, ↑minute) →
      datetimeValid year month day = true → hour < 24 → minute < 60 →
      ¬(year = 9999 ∧ month = 12 ∧ day = 31 ∧ 990 ≤ 60 * hour + minute) →
      ∃ y2 m2 d2 h2 mi2,
        datetimeValid y2 m2 d2 = true ∧ h2 < 24 ∧ mi2 < 60 ∧
        toMinutes y2 m2 d2 h2 mi2 = toMinutes year month day hour minute + 30 ∧
        ((17 ≤ h2 ∧ ∃ y3 m3 d3,
            datetimeValid y3 m3 d3 = true ∧
            toOrdinal y3 m3 d3 = toOrdinal y2 m2 d2 + 1 ∧
            get_next_time_slot ds ts = (render_date y3 m3 d3, render_time 9 0))
          ∨ (h2 < 17 ∧
            get_next_time_slot ds ts = (render_date y2 m2 d2, render_time h2 mi2))))
    ∧ (∀ (ds : String) (day month year : Nat),
        parseDateLoose ds.data = some (↑day, ↑month, ↑year) →
        datetimeValid year month day = true →
        get_next_time_slot ds "00:00" = (render_date year month day, render_time 0 30))
    ∧ (∀ ds ts : String,
        parseDateLoose ds.data = none ∨ parseTimeLoose ts.data = none ∨
          (∃ day month year hour minute : Int,
            parseDateLoose ds.data = some (day, month, year) ∧
            parseTimeLoose ts.data = some (hour, minute) ∧
            ctorOK day month year hour minute = false) →
        get_next_time_slot ds ts = (ds, ts))
    ∧ (∀ (ds ts : String) (hour minute : Nat),
        parseDateLoose ds.data = some (31, 12, 9999) →
        parseTimeLoose ts.data = some (↑hour, ↑minute) →
        hour < 24 → minute < 60 → 990 ≤ 60 * hour + minute →
        get_next_time_slot ds ts = (ds, ts))
    ∧ get_next_time_slot "25-08-2025" "9: 30" = ("25-08-2025", "10:00") := by
  refine ⟨?_, ?_, ?_, ?_, rfl⟩
  · intro ds ts day month year hour minute hpd hpt hv hh hmi hex
    have hvv : ctorOK (↑day) (↑month) (↑year) (↑hour) (↑minute) = true := by
      unfold ctorOK
      simp only [toNat_natCast]
      simp [hv, decide_eq_true (by omega : (0 : Int) ≤ (day : Int)),
        decide_eq_true (by omega : (0 : Int) ≤ (month : Int)),
        decide_eq_true (by omega : (0 : Int) ≤ (year : Int)),
        decide_eq_true (by omega : (0 : Int) ≤ (hour : Int)),
        decide_eq_true (by omega : (0 : Int) ≤ (minute : Int)),
        decide_eq_true hh, decide_eq_true hmi]
    cases ham : addMinutes30 year month day hour minute with
    | none =>
      obtain ⟨rfl, rfl, rfl, rfl⟩ := addMinutes30_none hv hh ham
      exact absurd ⟨rfl, rfl, rfl, by omega⟩ hex
    | some v =>
      obtain ⟨y2, m2, d2, h2, mi2⟩ := v
      obtain ⟨hv2, hh2, hmi2, htm, hsame⟩ := addMinutes30_some hv hh hmi ham
      refine ⟨y2, m2, d2, h2, mi2, hv2, hh2, hmi2, htm, ?_⟩
      by_cases h17 : 17 ≤ h2
      · obtain ⟨hy2, hm2, hd2, h16⟩ := hsame h17
        rcases hnd : nextDay y2 m2 d2 with ⟨y3, m3, d3⟩
        have hord := toOrdinal_nextDay_eq hv2 hnd
        have hy3 : y3 ≤ 9999 := by
          have hb2 := datetimeValid_bounds hv2
          rcases nextDay_cases hv2 hnd with hcase | ⟨hcase, hm12, hd31⟩
          · omega
          · have hnot : ¬(y2 = 9999) := by
              intro hc
              have h990 : 990 ≤ 60 * hour + minute := by
                unfold toMinutes at htm
                rw [hy2, hm2, hd2] at htm
                omega
              exact hex ⟨by omega, by omega, by omega, h990⟩
            omega
        refine Or.inl ⟨h17, y3, m3, d3, hord.2 hy3, hord.1, ?_⟩
        unfold get_next_time_slot
        simp only [hpd, hpt]
        rw [if_pos hvv]
        simp only [toNat_natCast, ham]
        rw [if_pos h17]
        simp only [hnd]
        rw [if_pos hy3]
        rfl
      · refine Or.inr ⟨by omega, ?_⟩
        unfold get_next_time_slot
        simp only [hpd, hpt]
        rw [if_pos hvv]
        simp only [toNat_natCast, ham]
        rw [if_neg h17]
        rfl
  · intro ds day month year hpd hv
    have hpt : parseTimeLoose ("00:00" : String).data = some (0, 0) := rfl
    have hvv : ctorOK (↑day) (↑month) (↑year) 0 0 = true := by
      unfold ctorOK
      simp only [toNat_natCast]
      simp [hv, decide_eq_true (by omega : (0 : Int) ≤ (day : Int)),
        decide_eq_true (by omega : (0 : Int) ≤ (month : Int)),
        decide_eq_true (by omega : (0 : Int) ≤ (year : Int))]
    have ham : addMinutes30 year month day 0 0 = some (year, month, day, 0, 30) := rfl
    unfold get_next_time_slot
    simp only [hpd, hpt]
    rw [if_pos hvv]
    simp only [toNat_natCast, show ((0 : Int)).toNat = 0 from rfl, ham]
    rw [if_neg (by omega)]
    rfl
  · intro ds ts hbad
    rcases hpd : parseDateLoose ds.data with _ | ⟨day, month, year⟩
    · unfold get_next_time_slot
      simp only [hpd]
    · rcases hpt : parseTimeLoose ts.data with _ | ⟨hour, minute⟩
      · unfold get_next_time_slot
        simp only [hpd, hpt]
      · rcases hbad with hb | hb | ⟨d2, m2, y2, h2, mi2, hb1, hb2, hb3⟩
        · rw [hpd] at hb; exact absurd hb (by simp)
        · rw [hpt] at hb; exact absurd hb (by simp)
        · rw [hpd, Option.some.injEq, Prod.mk.injEq, Prod.mk.injEq] at hb1
          rw [hpt, Option.some.injEq, Prod.mk.injEq] at hb2
          obtain ⟨rfl, rfl, rfl⟩ := hb1
          obtain ⟨rfl, rfl⟩ := hb2
          unfold get_next_time_slot
          simp only [hpd, hpt]
          rw [if_neg (by rw [hb3]; simp)]
  · intro ds ts hour minute hpd hpt hh hmi h990
    have hvv : ctorOK 31 12 9999 (↑hour) (↑minute) = true := by
      unfold ctorOK
      simp only [toNat_natCast, show ((31 : Int)).toNat = 31 from rfl,
        show ((12 : Int)).toNat = 12 from rfl,
        show ((9999 : Int)).toNat = 9999 from rfl]
      simp [decide_eq_true (by omega : (0 : Int) ≤ (31 : Int)),
        decide_eq_true (by omega : (0 : Int) ≤ (12 : Int)),
        decide_eq_true (by omega : (0 : Int) ≤ (9999 : Int)),
        decide_eq_true (by omega : (0 : Int) ≤ (hour : Int)),
        decide_eq_true (by omega : (0 : Int) ≤ (minute : Int)),
        decide_eq_true hh, decide_eq_true hmi,
        show datetimeValid 9999 12 31 = true from by decide]
    unfold get_next_time_slot
    simp only [hpd, hpt]
    rw [if_pos hvv]
    simp only [toNat_natCast, show ((31 : Int)).toNat = 31 from rfl,
      show ((12 : Int)).toNat = 12 from rfl,
      show ((9999 : Int)).toNat = 9999 from rfl]
    cases ham : addMinutes30 9999 12 31 hour minute with
    | none => simp only [ham]
    | some v =>
      obtain ⟨y2, m2, d2, h2, mi2⟩ := v
      obtain ⟨hy2, hm2, hd2, h17⟩ := addMinutes30_last_day hh hmi h990 ham
      subst hy2; subst hm2; subst hd2
      simp only [ham]
      rw [if_pos h17]
      simp only [show nextDay 9999 12 31 = (10000, 1, 1) from by decide]
      rw [if_neg (by omega)]

theorem c10_next_slot_thirty_minutes_witness :
    parseDateLoose ("15-08-2025" : String).data = some (15, 8, 2025)
    ∧ parseTimeLoose ("16:30" : String).data = some (16, 30)
    ∧ (∃ y2 m2 d2 h2 mi2,
        datetimeValid y2 m2 d2 = true ∧ h2 < 24 ∧ mi2 < 60 ∧
        toMinutes y2 m2 d2 h2 mi2 = toMinutes 2025 8 15 16 30 + 30 ∧
        ((17 ≤ h2 ∧ ∃ y3 m3 d3,
            datetimeValid y3 m3 d3 = true ∧
            toOrdinal y3 m3 d3 = toOrdinal y2 m2 d2 + 1 ∧
            get_next_time_slot "15-08-2025" "16:30"
              = (render_date y3 m3 d3, render_time 9 0))
          ∨ (h2 < 17 ∧
            get_next_time_slot "15-08-2025" "16:30"
              = (render_date y2 m2 d2, render_time h2 mi2)))) :=
  ⟨rfl, rfl,
    c10_next_slot_thirty_minutes.1 "15-08-2025" "16:30" 15 8 2025 16 30
      rfl rfl (by decide) (by decide) (by decide) (by decide)⟩

/-- C5 (amended): the per-contact listing returns exactly the contact's
Confirmed appointments, ordered by ascending lexicographic comparison of the
DD-MM-YYYY date string and then of the HH:MM time string (the order `ORDER BY`
imposes on the `VARCHAR` columns) — which is not chronological across month
boundaries. -/
theorem c5_listing_filter_and_order (appts : List Appointment) (phone_number : String) :
    (get_user_appointments appts phone_number).Perm
      (appts.filter (fun a => a.phone_number == phone_number && a.status == "confirmed"))
    ∧ List.Sorted dateTimeLE (get_user_appointments appts phone_number) := by
  constructor
  · exact List.perm_insertionSort _ _
  · exact List.sorted_insertionSort _ _

/- ### Character-level facts for the symbolic evaluation of the parsers -/

theorem char_beq_false {c d : Char} (h : c.toNat ≠ d.toNat) : (c == d) = false := by
  rw [beq_eq_false_iff_ne]
  intro hc
  exact h (by rw [hc])

theorem isDigit_ne_dash {c : Char} (h : c.isDigit = true) : (c == '-') = false := by
  have hb := isDigit_toNat.mp h
  exact char_beq_false (by have hd : ('-' : Char).toNat = 45 := rfl; omega)

theorem isDigit_ne_colon {c : Char} (h : c.isDigit = true) : (c == ':') = false := by
  have hb := isDigit_toNat.mp h
  exact char_beq_false (by have hd : (':' : Char).toNat = 58 := rfl; omega)

theorem wsChar_digit {c : Char} (h : c.isDigit = true) : wsChar c = false := by
  have hb := isDigit_toNat.mp h
  unfold wsChar
  rw [char_beq_false (by have hx : (' ' : Char).toNat = 32 := rfl; omega),
      char_beq_false (by have hx : ('\t' : Char).toNat = 9 := rfl; omega),
      char_beq_false (by have hx : ('\n' : Char).toNat = 10 := rfl; omega),
      char_beq_false (by have hx : ('\r' : Char).toNat = 13 := rfl; omega),
      char_beq_false (by have hx : ('\x0b' : Char).toNat = 11 := rfl; omega),
      char_beq_false (by have hx : ('\x0c' : Char).toNat = 12 := rfl; omega)]
  rfl

theorem lowerChar_digit {c : Char} (h : c.isDigit = true) : lowerChar c = c := by
  have hb := isDigit_toNat.mp h
  unfold lowerChar
  rw [if_neg (by omega)]

theorem pDate_at {d1 d2 d3 d4 d5 d6 d7 d8 : Char} {rest : List Char}
    (h1 : d1.isDigit = true) (h2 : d2.isDigit = true) (h3 : d3.isDigit = true)
    (h4 : d4.isDigit = true) (h5 : d5.isDigit = true) (h6 : d6.isDigit = true)
    (h7 : d7.isDigit = true) (h8 : d8.isDigit = true) :
    pDate (d1 :: d2 :: '-' :: d3 :: d4 :: '-' :: d5 :: d6 :: d7 :: d8 :: rest)
      = some ([d1, d2, '-', d3, d4, '-', d5, d6, d7, d8], rest) := by
  simp [pDate, h1, h2, h3, h4, h5, h6, h7, h8]

theorem pTime1_at {hc m1 m2 : Char} {rest : List Char}
    (hh : hc.isDigit = true) (h1 : m1.isDigit = true) (h2 : m2.isDigit = true) :
    pTime (hc :: ':' :: m1 :: m2 :: rest) = some ([hc, ':', m1, m2], rest) := by
  simp [pTime, hh, h1, h2, show (':' : Char).isDigit = false from rfl]

theorem pTime2_at {a b m1 m2 : Char} {rest : List Char}
    (ha : a.isDigit = true) (hb : b.isDigit = true)
    (h1 : m1.isDigit = true) (h2 : m2.isDigit = true) :
    pTime (a :: b :: ':' :: m1 :: m2 :: rest) = some ([a, b, ':', m1, m2], rest) := by
  simp [pTime, ha, hb, h1, h2]

theorem pWS1_at {c : Char} {tl : List Char} (h : wsChar c = false) :
    pWS1 (' ' :: c :: tl) = some (c :: tl) := by
  simp [pWS1, List.takeWhile, List.dropWhile, h, show wsChar ' ' = true from rfl]

theorem pWS1_not {c : Char} {tl : List Char} (h : wsChar c = false) :
    pWS1 (c :: tl) = none := by
  simp [pWS1, List.takeWhile, h]

theorem pyStrip_spine (c d : Char) (mid : List Char)
    (hc : wsChar c = false) (hd : wsChar d = false) :
    pyStrip (c :: (mid ++ [d])) = c :: (mid ++ [d]) := by
  have h1 : List.dropWhile wsChar (c :: (mid ++ [d])) = c :: (mid ++ [d]) := by
    simp [List.dropWhile, hc]
  have hrev : (c :: (mid ++ [d])).reverse = d :: (mid.reverse ++ [c]) := by simp
  have h2 : List.dropWhile wsChar (d :: (mid.reverse ++ [c])) = d :: (mid.reverse ++ [c]) := by
    simp [List.dropWhile, hd]
  simp [pyStrip, h1, hrev, h2]

theorem pyStrip_all_nonws {l : List Char} (h : ∀ c ∈ l, wsChar c = false) :
    pyStrip l = l := by
  have h1 : l.dropWhile wsChar = l := by
    cases l with
    | nil => rfl
    | cons c tl => simp [List.dropWhile, h c (List.mem_cons_self _ _)]
  have h2 : l.reverse.dropWhile wsChar = l.reverse := by
    cases hr : l.reverse with
    | nil => rfl
    | cons c tl =>
      have hc : c ∈ l := by
        rw [← List.mem_reverse, hr]
        exact List.mem_cons_self _ _
      simp [List.dropWhile, h c hc]
  simp [pyStrip, h1, h2]

/- ### Symbolic evaluation of the cancel-message patterns (C6) -/

theorem matchA_noat {d1 d2 d3 d4 d5 d6 d7 d8 hA m1 m2 : Char}
    (h1 : d1.isDigit = true) (h2 : d2.isDigit = true)
    (h3 : d3.isDigit = true) (h4 : d4.isDigit = true) (h5 : d5.isDigit = true)
    (h6 : d6.isDigit = true) (h7 : d7.isDigit = true) (h8 : d8.isDigit = true)
    (hh : hA.isDigit = true) (hm1 : m1.isDigit = true) (hm2 : m2.isDigit = true) :
    matchCancelA (d1 :: d2 :: '-' :: d3 :: d4 :: '-' :: d5 :: d6 :: d7 :: d8 ::
        ' ' :: hA :: ':' :: m1 :: [m2])
      = some ([d1, d2, '-', d3, d4, '-', d5, d6, d7, d8], [hA, ':', m1, m2]) := by
  simp only [matchCancelA, pDate_at h1 h2 h3 h4 h5 h6 h7 h8,
    pWS1_at (wsChar_digit hh), pTime1_at hh hm1 hm2]

theorem matchA_noat2 {d1 d2 d3 d4 d5 d6 d7 d8 hA hB m1 m2 : Char}
    (h1 : d1.isDigit = true) (h2 : d2.isDigit = true)
    (h3 : d3.isDigit = true) (h4 : d4.isDigit = true) (h5 : d5.isDigit = true)
    (h6 : d6.isDigit = true) (h7 : d7.isDigit = true) (h8 : d8.isDigit = true)
    (hh : hA.isDigit = true) (hh2 : hB.isDigit = true)
    (hm1 : m1.isDigit = true) (hm2 : m2.isDigit = true) :
    matchCancelA (d1 :: d2 :: '-' :: d3 :: d4 :: '-' :: d5 :: d6 :: d7 :: d8 ::
        ' ' :: hA :: hB :: ':' :: m1 :: [m2])
      = some ([d1, d2, '-', d3, d4, '-', d5, d6, d7, d8], [hA, hB, ':', m1, m2]) := by
  simp only [matchCancelA, pDate_at h1 h2 h3 h4 h5 h6 h7 h8,
    pWS1_at (wsChar_digit hh), pTime2_at hh hh2 hm1 hm2]

theorem matchB_at1 {d1 d2 d3 d4 d5 d6 d7 d8 hA m1 m2 : Char}
    (h1 : d1.isDigit = true) (h2 : d2.isDigit = true)
    (h3 : d3.isDigit = true) (h4 : d4.isDigit = true) (h5 : d5.isDigit = true)
    (h6 : d6.isDigit = true) (h7 : d7.isDigit = true) (h8 : d8.isDigit = true)
    (hh : hA.isDigit = true) (hm1 : m1.isDigit = true) (hm2 : m2.isDigit = true) :
    matchCancelB (d1 :: d2 :: '-' :: d3 :: d4 :: '-' :: d5 :: d6 :: d7 :: d8 ::
        ' ' :: 'a' :: 't' :: ' ' :: hA :: ':' :: m1 :: [m2])
      = some ([d1, d2, '-', d3, d4, '-', d5, d6, d7, d8], [hA, ':', m1, m2]) := by
  simp only [matchCancelB, pDate_at h1 h2 h3 h4 h5 h6 h7 h8,
    pWS1_at (show wsChar 'a' = false from rfl),
    pWS1_at (wsChar_digit hh), pTime1_at hh hm1 hm2]
  simp

theorem matchB_at2 {d1 d2 d3 d4 d5 d6 d7 d8 hA hB m1 m2 : Char}
    (h1 : d1.isDigit = true) (h2 : d2.isDigit = true)
    (h3 : d3.isDigit = true) (h4 : d4.isDigit = true) (h5 : d5.isDigit = true)
    (h6 : d6.isDigit = true) (h7 : d7.isDigit = true) (h8 : d8.isDigit = true)
    (hh : hA.isDigit = true) (hh2 : hB.isDigit = true)
    (hm1 : m1.isDigit = true) (hm2 : m2.isDigit = true) :
    matchCancelB (d1 :: d2 :: '-' :: d3 :: d4 :: '-' :: d5 :: d6 :: d7 :: d8 ::
        ' ' :: 'a' :: 't' :: ' ' :: hA :: hB :: ':' :: m1 :: [m2])
      = some ([d1, d2, '-', d3, d4, '-', d5, d6, d7, d8], [hA, hB, ':', m1, m2]) := by
  simp only [matchCancelB, pDate_at h1 h2 h3 h4 h5 h6 h7 h8,
    pWS1_at (show wsChar 'a' = false from rfl),
    pWS1_at (wsChar_digit hh), pTime2_at hh hh2 hm1 hm2]
  simp

theorem stripCancel_at {c : Char} {tl : List Char} (hcw : wsChar c = false) :
    stripCancelTok ('c' :: 'a' :: 'n' :: 'c' :: 'e' :: 'l' :: ' ' :: c :: tl) = c :: tl := by
  simp [stripCancelTok, List.takeWhile, List.dropWhile, hcw,
    show wsChar ' ' = true from rfl]

theorem searchPair_none_step {f : List Char → Option (List Char × List Char)} {c : Char}
    {tl : List Char} (h1 : f (c :: tl) = none) (h2 : searchPair f tl = none) :
    searchPair f (c :: tl) = none := by
  simp only [searchPair, h1, h2]

theorem searchPair_cons_some {f : List Char → Option (List Char × List Char)} {c : Char}
    {tl : List Char} {r : List Char × List Char} (h : f (c :: tl) = some r) :
    searchPair f (c :: tl) = some r := by
  simp only [searchPair, h]

/-- Pattern `(\d{2}-\d{2}-\d{4})\s+(\d{1,2}:\d{2})` matches at no position of
the body `DD-MM-YYYY at H:MM`: the eighteen-position sweep of `re.search`. -/
theorem sweepA_at1 {d1 d2 d3 d4 d5 d6 d7 d8 hA m1 m2 : Char}
    (h1 : d1.isDigit = true) (h2 : d2.isDigit = true)
    (h3 : d3.isDigit = true) (h4 : d4.isDigit = true) (h5 : d5.isDigit = true)
    (h6 : d6.isDigit = true) (h7 : d7.isDigit = true) (h8 : d8.isDigit = true)
    (hh : hA.isDigit = true) (hm1 : m1.isDigit = true) (hm2 : m2.isDigit = true) :
    searchPair matchCancelA (d1 :: d2 :: '-' :: d3 :: d4 :: '-' :: d5 :: d6 :: d7 :: d8 ::
      ' ' :: 'a' :: 't' :: ' ' :: hA :: ':' :: m1 :: [m2]) = none := by
  repeat
    refine searchPair_none_step (by
      simp [matchCancelA, pDate, pTime, pWS1, List.takeWhile, List.dropWhile,
        h1, h2, h3, h4, h5, h6, h7, h8, hh, hm1, hm2,
        isDigit_ne_dash h7, isDigit_ne_dash h8, wsChar_digit hh,
        show ('-' : Char).isDigit = false from rfl,
        show (' ' : Char).isDigit = false from rfl,
        show ('a' : Char).isDigit = false from rfl,
        show ('t' : Char).isDigit = false from rfl,
        show (':' : Char).isDigit = false from rfl,
        show ((' ' : Char) == '-') = false from rfl,
        show wsChar ' ' = true from rfl,
        show wsChar 'a' = false from rfl,
        show wsChar 't' = false from rfl]) ?_
  simp [searchPair, matchCancelA, pDate]

/-- The same sweep for the two-digit-hour body `DD-MM-YYYY at HH:MM`. -/
theorem sweepA_at2 {d1 d2 d3 d4 d5 d6 d7 d8 hA hB m1 m2 : Char}
    (h1 : d1.isDigit = true) (h2 : d2.isDigit = true)
    (h3 : d3.isDigit = true) (h4 : d4.isDigit = true) (h5 : d5.isDigit = true)
    (h6 : d6.isDigit = true) (h7 : d7.isDigit = true) (h8 : d8.isDigit = true)
    (hh : hA.isDigit = true) (hh2 : hB.isDigit = true)
    (hm1 : m1.isDigit = true) (hm2 : m2.isDigit = true) :
    searchPair matchCancelA (d1 :: d2 :: '-' :: d3 :: d4 :: '-' :: d5 :: d6 :: d7 :: d8 ::
      ' ' :: 'a' :: 't' :: ' ' :: hA :: hB :: ':' :: m1 :: [m2]) = none := by
  repeat
    refine searchPair_none_step (by
      simp [matchCancelA, pDate, pTime, pWS1, List.takeWhile, List.dropWhile,
        h1, h2, h3, h4, h5, h6, h7, h8, hh, hh2, hm1, hm2,
        isDigit_ne_dash h7, isDigit_ne_dash h8, wsChar_digit hh,
        isDigit_ne_colon hh2,
        show ('-' : Char).isDigit = false from rfl,
        show (' ' : Char).isDigit = false from rfl,
        show ('a' : Char).isDigit = false from rfl,
        show ('t' : Char).isDigit = false from rfl,
        show (':' : Char).isDigit = false from rfl,
        show ((' ' : Char) == '-') = false from rfl,
        show wsChar ' ' = true from rfl,
        show wsChar 'a' = false from rfl,
        show wsChar 't' = false from rfl]) ?_
  simp [searchPair, matchCancelA, pDate]

theorem padHour1 {hA m1 m2 : Char} (hh : hA.isDigit = true) (hm1 : m1.isDigit = true)
    (hm2 : m2.isDigit = true) :
    padHour [hA, ':', m1, m2] = '0' :: hA :: ':' :: m1 :: [m2] := by
  simp [padHour, splitOnChar, isDigit_ne_colon hh, isDigit_ne_colon hm1,
    isDigit_ne_colon hm2]

theorem padHour2 {hA hB m1 m2 : Char} (hh : hA.isDigit = true) (hh2 : hB.isDigit = true)
    (hm1 : m1.isDigit = true) (hm2 : m2.isDigit = true) :
    padHour [hA, hB, ':', m1, m2] = [hA, hB, ':', m1, m2] := by
  simp [padHour, splitOnChar, isDigit_ne_colon hh, isDigit_ne_colon hh2,
    isDigit_ne_colon hm1, isDigit_ne_colon hm2]

theorem mapLower_noat1 {d1 d2 d3 d4 d5 d6 d7 d8 hA m1 m2 : Char}
    (h1 : d1.isDigit = true) (h2 : d2.isDigit = true)
    (h3 : d3.isDigit = true) (h4 : d4.isDigit = true) (h5 : d5.isDigit = true)
    (h6 : d6.isDigit = true) (h7 : d7.isDigit = true) (h8 : d8.isDigit = true)
    (hh : hA.isDigit = true) (hm1 : m1.isDigit = true) (hm2 : m2.isDigit = true) :
    ('C' :: 'a' :: 'n' :: 'c' :: 'e' :: 'l' :: ' ' :: d1 :: d2 :: '-' :: d3 :: d4 :: '-' ::
        d5 :: d6 :: d7 :: d8 :: ' ' :: hA :: ':' :: m1 :: [m2]).map lowerChar
      = 'c' :: 'a' :: 'n' :: 'c' :: 'e' :: 'l' :: ' ' :: d1 :: d2 :: '-' :: d3 :: d4 :: '-' ::
        d5 :: d6 :: d7 :: d8 :: ' ' :: hA :: ':' :: m1 :: [m2] := by
  simp only [List.map_cons, List.map_nil, lowerChar_digit h1, lowerChar_digit h2,
    lowerChar_digit h3, lowerChar_digit h4, lowerChar_digit h5, lowerChar_digit h6,
    lowerChar_digit h7, lowerChar_digit h8, lowerChar_digit hh, lowerChar_digit hm1,
    lowerChar_digit hm2, show lowerChar 'C' = 'c' from rfl,
    show lowerChar 'a' = 'a' from rfl, show lowerChar 'n' = 'n' from rfl,
    show lowerChar 'c' = 'c' from rfl, show lowerChar 'e' = 'e' from rfl,
    show lowerChar 'l' = 'l' from rfl, show lowerChar ' ' = ' ' from rfl,
    show lowerChar '-' = '-' from rfl, show lowerChar ':' = ':' from rfl]

theorem c6_form1 {d1 d2 d3 d4 d5 d6 d7 d8 hA m1 m2 : Char}
    (h1 : d1.isDigit = true) (h2 : d2.isDigit = true)
    (h3 : d3.isDigit = true) (h4 : d4.isDigit = true) (h5 : d5.isDigit = true)
    (h6 : d6.isDigit = true) (h7 : d7.isDigit = true) (h8 : d8.isDigit = true)
    (hh : hA.isDigit = true) (hm1 : m1.isDigit = true) (hm2 : m2.isDigit = true) :
    parse_cancel_message ⟨'C' :: 'a' :: 'n' :: 'c' :: 'e' :: 'l' :: ' ' :: d1 :: d2 :: '-' ::
        d3 :: d4 :: '-' :: d5 :: d6 :: d7 :: d8 :: ' ' :: hA :: ':' :: m1 :: [m2]⟩
      = (some ⟨[d1, d2, '-', d3, d4, '-', d5, d6, d7, d8]⟩,
         some ⟨['0', hA, ':', m1, m2]⟩) := by
  have hstrip := pyStrip_spine 'c' m2
    ['a', 'n', 'c', 'e', 'l', ' ', d1, d2, '-', d3, d4, '-', d5, d6, d7, d8, ' ', hA, ':', m1]
    rfl (wsChar_digit hm2)
  simp only [List.cons_append, List.nil_append] at hstrip
  have hsearch := searchPair_cons_some (matchA_noat h1 h2 h3 h4 h5 h6 h7 h8 hh hm1 hm2)
  simp only [parse_cancel_message, mapLower_noat1 h1 h2 h3 h4 h5 h6 h7 h8 hh hm1 hm2,
    hstrip, stripCancel_at (wsChar_digit h1), hsearch, padHour1 hh hm1 hm2]

theorem mapLower_noat2 {d1 d2 d3 d4 d5 d6 d7 d8 hA hB m1 m2 : Char}
    (h1 : d1.isDigit = true) (h2 : d2.isDigit = true)
    (h3 : d3.isDigit = true) (h4 : d4.isDigit = true) (h5 : d5.isDigit = true)
    (h6 : d6.isDigit = true) (h7 : d7.isDigit = true) (h8 : d8.isDigit = true)
    (hh : hA.isDigit = true) (hh2 : hB.isDigit = true)
    (hm1 : m1.isDigit = true) (hm2 : m2.isDigit = true) :
    ('C' :: 'a' :: 'n' :: 'c' :: 'e' :: 'l' :: ' ' :: d1 :: d2 :: '-' :: d3 :: d4 :: '-' ::
        d5 :: d6 :: d7 :: d8 :: ' ' :: hA :: hB :: ':' :: m1 :: [m2]).map lowerChar
      = 'c' :: 'a' :: 'n' :: 'c' :: 'e' :: 'l' :: ' ' :: d1 :: d2 :: '-' :: d3 :: d4 :: '-' ::
        d5 :: d6 :: d7 :: d8 :: ' ' :: hA :: hB :: ':' :: m1 :: [m2] := by
  simp only [List.map_cons, List.map_nil, lowerChar_digit h1, lowerChar_digit h2,
    lowerChar_digit h3, lowerChar_digit h4, lowerChar_digit h5, lowerChar_digit h6,
    lowerChar_digit h7, lowerChar_digit h8, lowerChar_digit hh, lowerChar_digit hh2,
    lowerChar_digit hm1, lowerChar_digit hm2, show lowerChar 'C' = 'c' from rfl,
    show lowerChar 'a' = 'a' from rfl, show lowerChar 'n' = 'n' from rfl,
    show lowerChar 'c' = 'c' from rfl, show lowerChar 'e' = 'e' from rfl,
    show lowerChar 'l' = 'l' from rfl, show lowerChar ' ' = ' ' from rfl,
    show lowerChar '-' = '-' from rfl, show lowerChar ':' = ':' from rfl]

theorem c6_form2 {d1 d2 d3 d4 d5 d6 d7 d8 hA hB m1 m2 : Char}
    (h1 : d1.isDigit = true) (h2 : d2.isDigit = true)
    (h3 : d3.isDigit = true) (h4 : d4.isDigit = true) (h5 : d5.isDigit = true)
    (h6 : d6.isDigit = true) (h7 : d7.isDigit = true) (h8 : d8.isDigit = true)
    (hh : hA.isDigit = true) (hh2 : hB.isDigit = true)
    (hm1 : m1.isDigit = true) (hm2 : m2.isDigit = true) :
    parse_cancel_message ⟨'C' :: 'a' :: 'n' :: 'c' :: 'e' :: 'l' :: ' ' :: d1 :: d2 :: '-' ::
        d3 :: d4 :: '-' :: d5 :: d6 :: d7 :: d8 :: ' ' :: hA :: hB :: ':' :: m1 :: [m2]⟩
      = (some ⟨[d1, d2, '-', d3, d4, '-', d5, d6, d7, d8]⟩,
         some ⟨[hA, hB, ':', m1, m2]⟩) := by
  have hstrip := pyStrip_spine 'c' m2
    ['a', 'n', 'c', 'e', 'l', ' ', d1, d2, '-', d3, d4, '-', d5, d6, d7, d8, ' ', hA, hB, ':', m1]
    rfl (wsChar_digit hm2)
  simp only [List.cons_append, List.nil_append] at hstrip
  have hsearch := searchPair_cons_some
    (matchA_noat2 h1 h2 h3 h4 h5 h6 h7 h8 hh hh2 hm1 hm2)
  simp only [parse_cancel_message,
    mapLower_noat2 h1 h2 h3 h4 h5 h6 h7 h8 hh hh2 hm1 hm2,
    hstrip, stripCancel_at (wsChar_digit h1), hsearch, padHour2 hh hh2 hm1 hm2]

theorem mapLower_at1 {d1 d2 d3 d4 d5 d6 d7 d8 hA m1 m2 : Char}
    (h1 : d1.isDigit = true) (h2 : d2.isDigit = true)
    (h3 : d3.isDigit = true) (h4 : d4.isDigit = true) (h5 : d5.isDigit = true)
    (h6 : d6.isDigit = true) (h7 : d7.isDigit = true) (h8 : d8.isDigit = true)
    (hh : hA.isDigit = true) (hm1 : m1.isDigit = true) (hm2 : m2.isDigit = true) :
    ('C' :: 'a' :: 'n' :: 'c' :: 'e' :: 'l' :: ' ' :: d1 :: d2 :: '-' :: d3 :: d4 :: '-' ::
        d5 :: d6 :: d7 :: d8 :: ' ' :: 'a' :: 't' :: ' ' :: hA :: ':' :: m1 :: [m2]).map lowerChar
      = 'c' :: 'a' :: 'n' :: 'c' :: 'e' :: 'l' :: ' ' :: d1 :: d2 :: '-' :: d3 :: d4 :: '-' ::
        d5 :: d6 :: d7 :: d8 :: ' ' :: 'a' :: 't' :: ' ' :: hA :: ':' :: m1 :: [m2] := by
  simp only [List.map_cons, List.map_nil, lowerChar_digit h1, lowerChar_digit h2,
    lowerChar_digit h3, lowerChar_digit h4, lowerChar_digit h5, lowerChar_digit h6,
    lowerChar_digit h7, lowerChar_digit h8, lowerChar_digit hh, lowerChar_digit hm1,
    lowerChar_digit hm2, show lowerChar 'C' = 'c' from rfl,
    show lowerChar 'a' = 'a' from rfl, show lowerChar 'n' = 'n' from rfl,
    show lowerChar 'c' = 'c' from rfl, show lowerChar 'e' = 'e' from rfl,
    show lowerChar 'l' = 'l' from rfl, show lowerChar ' ' = ' ' from rfl,
    show lowerChar '-' = '-' from rfl, show lowerChar ':' = ':' from rfl,
    show lowerChar 't' = 't' from rfl]

theorem c6_form3 {d1 d2 d3 d4 d5 d6 d7 d8 hA m1 m2 : Char}
    (h1 : d1.isDigit = true) (h2 : d2.isDigit = true)
    (h3 : d3.isDigit = true) (h4 : d4.isDigit = true) (h5 : d5.isDigit = true)
    (h6 : d6.isDigit = true) (h7 : d7.isDigit = true) (h8 : d8.isDigit = true)
    (hh : hA.isDigit = true) (hm1 : m1.isDigit = true) (hm2 : m2.isDigit = true) :
    parse_cancel_message ⟨'C' :: 'a' :: 'n' :: 'c' :: 'e' :: 'l' :: ' ' :: d1 :: d2 :: '-' ::
        d3 :: d4 :: '-' :: d5 :: d6 :: d7 :: d8 :: ' ' :: 'a' :: 't' :: ' ' ::
        hA :: ':' :: m1 :: [m2]⟩
      = (some ⟨[d1, d2, '-', d3, d4, '-', d5, d6, d7, d8]⟩,
         some ⟨['0', hA, ':', m1, m2]⟩) := by
  have hstrip := pyStrip_spine 'c' m2
    ['a', 'n', 'c', 'e', 'l', ' ', d1, d2, '-', d3, d4, '-', d5, d6, d7, d8, ' ', 'a', 't', ' ', hA, ':', m1]
    rfl (wsChar_digit hm2)
  simp only [List.cons_append, List.nil_append] at hstrip
  have hA_none := sweepA_at1 h1 h2 h3 h4 h5 h6 h7 h8 hh hm1 hm2
  have hsearch := searchPair_cons_some (matchB_at1 h1 h2 h3 h4 h5 h6 h7 h8 hh hm1 hm2)
  simp only [parse_cancel_message, mapLower_at1 h1 h2 h3 h4 h5 h6 h7 h8 hh hm1 hm2,
    hstrip, stripCancel_at (wsChar_digit h1), hA_none, hsearch, padHour1 hh hm1 hm2]

theorem mapLower_at2 {d1 d2 d3 d4 d5 d6 d7 d8 hA hB m1 m2 : Char}
    (h1 : d1.isDigit = true) (h2 : d2.isDigit = true)
    (h3 : d3.isDigit = true) (h4 : d4.isDigit = true) (h5 : d5.isDigit = true)
    (h6 : d6.isDigit = true) (h7 : d7.isDigit = true) (h8 : d8.isDigit = true)
    (hh : hA.isDigit = true) (hh2 : hB.isDigit = true)
    (hm1 : m1.isDigit = true) (hm2 : m2.isDigit = true) :
    ('C' :: 'a' :: 'n' :: 'c' :: 'e' :: 'l' :: ' ' :: d1 :: d2 :: '-' :: d3 :: d4 :: '-' ::
        d5 :: d6 :: d7 :: d8 :: ' ' :: 'a' :: 't' :: ' ' :: hA :: hB :: ':' :: m1 :: [m2]).map lowerChar
      = 'c' :: 'a' :: 'n' :: 'c' :: 'e' :: 'l' :: ' ' :: d1 :: d2 :: '-' :: d3 :: d4 :: '-' ::
        d5 :: d6 :: d7 :: d8 :: ' ' :: 'a' :: 't' :: ' ' :: hA :: hB :: ':' :: m1 :: [m2] := by
  simp only [List.map_cons, List.map_nil, lowerChar_digit h1, lowerChar_digit h2,
    lowerChar_digit h3, lowerChar_digit h4, lowerChar_digit h5, lowerChar_digit h6,
    lowerChar_digit h7, lowerChar_digit h8, lowerChar_digit hh, lowerChar_digit hh2,
    lowerChar_digit hm1, lowerChar_digit hm2, show lowerChar 'C' = 'c' from rfl,
    show lowerChar 'a' = 'a' from rfl, show lowerChar 'n' = 'n' from rfl,
    show lowerChar 'c' = 'c' from rfl, show lowerChar 'e' = 'e' from rfl,
    show lowerChar 'l' = 'l' from rfl, show lowerChar ' ' = ' ' from rfl,
    show lowerChar '-' = '-' from rfl, show lowerChar ':' = ':' from rfl,
    show lowerChar 't' = 't' from rfl]

theorem c6_form4 {d1 d2 d3 d4 d5 d6 d7 d8 hA hB m1 m2 : Char}
    (h1 : d1.isDigit = true) (h2 : d2.isDigit = true)
    (h3 : d3.isDigit = true) (h4 : d4.isDigit = true) (h5 : d5.isDigit = true)
    (h6 : d6.isDigit = true) (h7 : d7.isDigit = true) (h8 : d8.isDigit = true)
    (hh : hA.isDigit = true) (hh2 : hB.isDigit = true)
    (hm1 : m1.isDigit = true) (hm2 : m2.isDigit = true) :
    parse_cancel_message ⟨'C' :: 'a' :: 'n' :: 'c' :: 'e' :: 'l' :: ' ' :: d1 :: d2 :: '-' ::
        d3 :: d4 :: '-' :: d5 :: d6 :: d7 :: d8 :: ' ' :: 'a' :: 't' :: ' ' ::
        hA :: hB :: ':' :: m1 :: [m2]⟩
      = (some ⟨[d1, d2, '-', d3, d4, '-', d5, d6, d7, d8]⟩,
         some ⟨[hA, hB, ':', m1, m2]⟩) := by
  have hstrip := pyStrip_spine 'c' m2
    ['a', 'n', 'c', 'e', 'l', ' ', d1, d2, '-', d3, d4, '-', d5, d6, d7, d8, ' ', 'a', 't', ' ', hA, hB, ':', m1]
    rfl (wsChar_digit hm2)
  simp only [List.cons_append, List.nil_append] at hstrip
  have hA_none := sweepA_at2 h1 h2 h3 h4 h5 h6 h7 h8 hh hh2 hm1 hm2
  have hsearch := searchPair_cons_some
    (matchB_at2 h1 h2 h3 h4 h5 h6 h7 h8 hh hh2 hm1 hm2)
  simp only [parse_cancel_message,
    mapLower_at2 h1 h2 h3 h4 h5 h6 h7 h8 hh hh2 hm1 hm2,
    hstrip, stripCancel_at (wsChar_digit h1), hA_none, hsearch, padHour2 hh hh2 hm1 hm2]

/-- C6 (amended): for each of the four token shapes the source's patterns
accept — `Cancel DD-MM-YYYY H:MM`, `Cancel DD-MM-YYYY HH:MM`,
`Cancel DD-MM-YYYY at H:MM`, `Cancel DD-MM-YYYY at HH:MM`, with arbitrary
digits in the date and time fields — `parse_cancel_message` extracts the date
token and the time token, zero-padding a single-digit hour to two digits; and
when neither pattern matches, both fields are `None`.  The spec's `9:5`
example is false because the minute group is `\d{2}`, two digits exactly
(refuted in `c6_nine_five_rejected`). -/
theorem c6_cancel_token_forms
    (d1 d2 d3 d4 d5 d6 d7 d8 hA hB m1 m2 : Char)
    (h1 : d1.isDigit = true) (h2 : d2.isDigit = true)
    (h3 : d3.isDigit = true) (h4 : d4.isDigit = true) (h5 : d5.isDigit = true)
    (h6 : d6.isDigit = true) (h7 : d7.isDigit = true) (h8 : d8.isDigit = true)
    (hh : hA.isDigit = true) (hh2 : hB.isDigit = true)
    (hm1 : m1.isDigit = true) (hm2 : m2.isDigit = true) :
    parse_cancel_message ⟨'C' :: 'a' :: 'n' :: 'c' :: 'e' :: 'l' :: ' ' :: d1 :: d2 :: '-' ::
        d3 :: d4 :: '-' :: d5 :: d6 :: d7 :: d8 :: ' ' :: hA :: ':' :: m1 :: [m2]⟩
      = (some ⟨[d1, d2, '-', d3, d4, '-', d5, d6, d7, d8]⟩, some ⟨['0', hA, ':', m1, m2]⟩)
    ∧ parse_cancel_message ⟨'C' :: 'a' :: 'n' :: 'c' :: 'e' :: 'l' :: ' ' :: d1 :: d2 :: '-' ::
        d3 :: d4 :: '-' :: d5 :: d6 :: d7 :: d8 :: ' ' :: hA :: hB :: ':' :: m1 :: [m2]⟩
      = (some ⟨[d1, d2, '-', d3, d4, '-', d5, d6, d7, d8]⟩, some ⟨[hA, hB, ':', m1, m2]⟩)
    ∧ parse_cancel_message ⟨'C' :: 'a' :: 'n' :: 'c' :: 'e' :: 'l' :: ' ' :: d1 :: d2 :: '-' ::
        d3 :: d4 :: '-' :: d5 :: d6 :: d7 :: d8 :: ' ' :: 'a' :: 't' :: ' ' ::
        hA :: ':' :: m1 :: [m2]⟩
      = (some ⟨[d1, d2, '-', d3, d4, '-', d5, d6, d7, d8]⟩, some ⟨['0', hA, ':', m1, m2]⟩)
    ∧ parse_cancel_message ⟨'C' :: 'a' :: 'n' :: 'c' :: 'e' :: 'l' :: ' ' :: d1 :: d2 :: '-' ::
        d3 :: d4 :: '-' :: d5 :: d6 :: d7 :: d8 :: ' ' :: 'a' :: 't' :: ' ' ::
        hA :: hB :: ':' :: m1 :: [m2]⟩
      = (some ⟨[d1, d2, '-', d3, d4, '-', d5, d6, d7, d8]⟩, some ⟨[hA, hB, ':', m1, m2]⟩)
    ∧ parse_cancel_message "please cancel everything" = (none, none) :=
  ⟨c6_form1 h1 h2 h3 h4 h5 h6 h7 h8 hh hm1 hm2,
   c6_form2 h1 h2 h3 h4 h5 h6 h7 h8 hh hh2 hm1 hm2,
   c6_form3 h1 h2 h3 h4 h5 h6 h7 h8 hh hm1 hm2,
   c6_form4 h1 h2 h3 h4 h5 h6 h7 h8 hh hh2 hm1 hm2,
   by decide⟩

/-- C6 witness: the amended statement applied at the digits of
`Cancel 25-08-2025 at 9:15` (third shape, hour zero-padded to `09:15`). -/
theorem c6_cancel_token_forms_witness :
    parse_cancel_message "Cancel 25-08-2025 at 9:15"
      = (some "25-08-2025", some "09:15") :=
  (c6_cancel_token_forms '2' '5' '0' '8' '2' '0' '2' '5' '9' '1' '1' '5'
    (by decide) (by decide) (by decide) (by decide) (by decide) (by decide)
    (by decide) (by decide) (by decide) (by decide) (by decide) (by decide)).2.2.1

/-- C6 counterexample: the claim's own example `Cancel 25-08-2025 at 9:5` is
NOT parsed into `("25-08-2025", "09:05")`: the minute group `\d{2}` needs two
digits, so both patterns fail and the parser returns `(None, None)`. -/
theorem c6_nine_five_rejected :
    parse_cancel_message "Cancel 25-08-2025 at 9:5" = (none, none)
    ∧ parse_cancel_message "Cancel 25-08-2025 at 9:5"
        ≠ (some "25-08-2025", some "09:05") :=
  ⟨by decide, by decide⟩

/- ### Symbolic evaluation of booking pattern 1 (C9) -/

theorem wsChar_ne_nl {c : Char} (h : wsChar c = false) : (c == '\n') = false := by
  by_cases hc : c = '\n'
  · subst hc
    exact absurd h (by simp [wsChar])
  · exact beq_eq_false_iff_ne.mpr hc

theorem lazyGroup_found {acc : List Char} {c : Char} {tl : List Char} (d t : List Char)
    (h : groupTail (c :: tl) = some (d, t)) :
    lazyGroup acc (c :: tl) = some (acc.reverse, d, t) := by
  rw [lazyGroup, h]

theorem lazyGroup_step {acc : List Char} {c : Char} {tl : List Char}
    (h : groupTail (c :: tl) = none) (hc : (c == '\n') = false) :
    lazyGroup acc (c :: tl) = lazyGroup (c :: acc) tl := by
  rw [lazyGroup, h]
  show (if (c == '\n') = true then none else lazyGroup (c :: acc) tl)
    = lazyGroup (c :: acc) tl
  rw [if_neg (by simp [hc])]

theorem searchP1_cons_some {c : Char} {tl : List Char}
    {r : List Char × List Char × List Char} (h : matchP1At (c :: tl) = some r) :
    searchP1 (c :: tl) = some r := by
  simp only [searchP1, h]

/-- The lazy group `(.+?)` swallows a whitespace-free name one character at a
time — at every intermediate position the tail continuation `\s+...` fails on
a non-whitespace head — and first succeeds with the whole name when the
remaining input is ` 15-08-2025 14:30`. -/
theorem lazyGroup_nonws (ntl acc : List Char)
    (h : ∀ c ∈ ntl, wsChar c = false) :
    lazyGroup acc (ntl ++ (' ' :: '1' :: '5' :: '-' :: '0' :: '8' :: '-' :: '2' ::
        '0' :: '2' :: '5' :: ' ' :: '1' :: '4' :: ':' :: '3' :: ['0']))
      = some (acc.reverse ++ ntl, ['1', '5', '-', '0', '8', '-', '2', '0', '2', '5'],
              ['1', '4', ':', '3', '0']) := by
  induction ntl generalizing acc with
  | nil =>
    simp only [List.nil_append]
    rw [lazyGroup_found ['1', '5', '-', '0', '8', '-', '2', '0', '2', '5']
      ['1', '4', ':', '3', '0'] (by decide)]
    simp
  | cons n ns ih =>
    have hn : wsChar n = false := h n (List.mem_cons_self _ _)
    have hgt : groupTail (n :: (ns ++ (' ' :: '1' :: '5' :: '-' :: '0' :: '8' :: '-' ::
        '2' :: '0' :: '2' :: '5' :: ' ' :: '1' :: '4' :: ':' :: '3' :: ['0']))) = none := by
      simp [groupTail, pWS1_not hn]
    rw [List.cons_append, lazyGroup_step hgt (wsChar_ne_nl hn),
      ih (n :: acc) (fun c hc => h c (List.mem_cons_of_mem _ hc))]
    simp

/-- Pattern 1 on `book <name> 15-08-2025 14:30` for any nonempty
whitespace-free `name` yields the name verbatim: no filler-word stripping and
no length requirement on this path. -/
theorem c9_strict_general (name : List Char) (hne : name ≠ [])
    (h : ∀ c ∈ name, wsChar c = false) :
    extract_booking_details ⟨'b' :: 'o' :: 'o' :: 'k' :: ' ' ::
        (name ++ (' ' :: '1' :: '5' :: '-' :: '0' :: '8' :: '-' :: '2' :: '0' :: '2' ::
          '5' :: ' ' :: '1' :: '4' :: ':' :: '3' :: ['0']))⟩
      = (some ⟨name⟩, some "15-08-2025", some "14:30") := by
  obtain ⟨n0, ntl, rfl⟩ := List.exists_cons_of_ne_nil hne
  have hn0 : wsChar n0 = false := h n0 (List.mem_cons_self _ _)
  have hstrip := pyStrip_spine 'b' '0'
    ('o' :: 'o' :: 'k' :: ' ' :: ((n0 :: ntl) ++
      [' ', '1', '5', '-', '0', '8', '-', '2', '0', '2', '5', ' ', '1', '4', ':', '3']))
    rfl rfl
  simp only [List.cons_append, List.nil_append, List.append_assoc] at hstrip
  have hbook : matchBookCI ('b' :: 'o' :: 'o' :: 'k' :: ' ' :: n0 ::
      (ntl ++ (' ' :: '1' :: '5' :: '-' :: '0' :: '8' :: '-' :: '2' :: '0' :: '2' ::
        '5' :: ' ' :: '1' :: '4' :: ':' :: '3' :: ['0'])))
      = some (' ' :: n0 :: (ntl ++ (' ' :: '1' :: '5' :: '-' :: '0' :: '8' :: '-' ::
        '2' :: '0' :: '2' :: '5' :: ' ' :: '1' :: '4' :: ':' :: '3' :: ['0']))) := by
    simp [matchBookCI, show lowerChar 'b' = 'b' from rfl,
      show lowerChar 'o' = 'o' from rfl, show lowerChar 'k' = 'k' from rfl]
  have htk : ((' ' :: n0 :: (ntl ++ (' ' :: '1' :: '5' :: '-' :: '0' :: '8' :: '-' ::
      '2' :: '0' :: '2' :: '5' :: ' ' :: '1' :: '4' :: ':' :: '3' :: ['0']))).takeWhile
        wsChar) = [' '] := by
    simp [List.takeWhile, hn0, show wsChar ' ' = true from rfl]
  have hlz := lazyGroup_nonws ntl [n0] (fun c hc => h c (List.mem_cons_of_mem _ hc))
  have htry : tryWS (' ' :: n0 :: (ntl ++ (' ' :: '1' :: '5' :: '-' :: '0' :: '8' ::
      '-' :: '2' :: '0' :: '2' :: '5' :: ' ' :: '1' :: '4' :: ':' :: '3' :: ['0']))) 1
      = some (n0 :: ntl, ['1', '5', '-', '0', '8', '-', '2', '0', '2', '5'],
              ['1', '4', ':', '3', '0']) := by
    have e : tryWS (' ' :: n0 :: (ntl ++ (' ' :: '1' :: '5' :: '-' :: '0' :: '8' ::
        '-' :: '2' :: '0' :: '2' :: '5' :: ' ' :: '1' :: '4' :: ':' :: '3' :: ['0']))) 1
        = (if (n0 == '\n') = true then
            tryWS (' ' :: n0 :: (ntl ++ (' ' :: '1' :: '5' :: '-' :: '0' ::
               '8' :: '-' :: '2' :: '0' :: '2' :: '5' :: ' ' :: '1' :: '4' :: ':' ::
               '3' :: ['0']))) 0
           else
            match lazyGroup [n0] (ntl ++ (' ' :: '1' :: '5' :: '-' :: '0' :: '8' ::
              '-' :: '2' :: '0' :: '2' :: '5' :: ' ' :: '1' :: '4' :: ':' :: '3' :: ['0'])) with
            | some r => some r
            | none => tryWS (' ' :: n0 :: (ntl ++ (' ' :: '1' :: '5' :: '-' :: '0' ::
                '8' :: '-' :: '2' :: '0' :: '2' :: '5' :: ' ' :: '1' :: '4' :: ':' ::
                '3' :: ['0']))) 0) := rfl
    rw [e, if_neg (by simp [wsChar_ne_nl hn0])]
    simp only [hlz]
    simp
  have hm1 : matchP1At ('b' :: 'o' :: 'o' :: 'k' :: ' ' :: n0 ::
      (ntl ++ (' ' :: '1' :: '5' :: '-' :: '0' :: '8' :: '-' :: '2' :: '0' :: '2' ::
        '5' :: ' ' :: '1' :: '4' :: ':' :: '3' :: ['0'])))
      = some (n0 :: ntl, ['1', '5', '-', '0', '8', '-', '2', '0', '2', '5'],
              ['1', '4', ':', '3', '0']) := by
    simp only [matchP1At, hbook, htk, List.length_cons, List.length_nil]
    exact htry
  have hsp := searchP1_cons_some hm1
  simp only [List.cons_append]
  simp only [extract_booking_details, hstrip, hsp]
  rw [pyStrip_all_nonws h,
    show padHour ['1', '4', ':', '3', '0'] = ['1', '4', ':', '3', '0'] from by decide]

/-- C9: when the strict pattern
`book\s+(.+?)\s+(\d{2}-\d{2}-\d{4})\s+(\d{1,2}:\d{2})` matches, the extracted
name is the raw text between `book` and the date token: every nonempty
whitespace-free name — a single character, or a pure filler word such as `on`
— is returned verbatim, with no filler-word deletion and no
more-than-one-character requirement.  Those two rules act only on the
fallback path, which rejects the very same names (`J ...` and `on ...` both
give `(None, None, None)`). -/
theorem c9_strict_name_verbatim :
    (∀ name : List Char, name ≠ [] → (∀ c ∈ name, wsChar c = false) →
      extract_booking_details ⟨'b' :: 'o' :: 'o' :: 'k' :: ' ' ::
          (name ++ (' ' :: '1' :: '5' :: '-' :: '0' :: '8' :: '-' :: '2' :: '0' :: '2' ::
            '5' :: ' ' :: '1' :: '4' :: ':' :: '3' :: ['0']))⟩
        = (some ⟨name⟩, some "15-08-2025", some "14:30"))
    ∧ extract_booking_details "book on 15-08-2025 14:30"
        = (some "on", some "15-08-2025", some "14:30")
    ∧ extract_booking_details "book J 15-08-2025 14:30"
        = (some "J", some "15-08-2025", some "14:30")
    ∧ extract_booking_details "J 15-08-2025 14:30" = (none, none, none)
    ∧ extract_booking_details "on 15-08-2025 14:30" = (none, none, none) := by
  refine ⟨c9_strict_general, by decide, by decide, ?_, ?_⟩
  · simp only [extract_booking_details,
      show ("J 15-08-2025 14:30" : String).data
        = ['J', ' ', '1', '5', '-', '0', '8', '-', '2', '0', '2', '5', ' ', '1', '4', ':', '3', '0'] from rfl,
      show pyStrip ['J', ' ', '1', '5', '-', '0', '8', '-', '2', '0', '2', '5', ' ', '1', '4', ':', '3', '0']
        = ['J', ' ', '1', '5', '-', '0', '8', '-', '2', '0', '2', '5', ' ', '1', '4', ':', '3', '0'] from by decide,
      show searchP1 ['J', ' ', '1', '5', '-', '0', '8', '-', '2', '0', '2', '5', ' ', '1', '4', ':', '3', '0'] = none from by decide,
      show searchDateIdx 0 ['J', ' ', '1', '5', '-', '0', '8', '-', '2', '0', '2', '5', ' ', '1', '4', ':', '3', '0']
        = some (2, ['1', '5', '-', '0', '8', '-', '2', '0', '2', '5']) from by decide,
      show searchTimeTok ['J', ' ', '1', '5', '-', '0', '8', '-', '2', '0', '2', '5', ' ', '1', '4', ':', '3', '0']
        = some ['1', '4', ':', '3', '0'] from by decide,
      show pyStrip (['J', ' ', '1', '5', '-', '0', '8', '-', '2', '0', '2', '5', ' ', '1', '4', ':', '3', '0'].take 2)
        = ['J'] from by decide]
    rw [show removeFillers false ['J'] = ['J'] from by
      rw [removeFillers]
      simp [firstFiller, fillerWords, ciMatch, lowerChar, boundaryOK, isWordChar]
      rw [removeFillers]]
    rw [show collapseWS ['J'] = ['J'] from by
      rw [collapseWS]
      simp [wsChar]
      rw [collapseWS]]
    simp [show pyStrip ['J'] = ['J'] from by decide]
  · simp only [extract_booking_details,
      show ("on 15-08-2025 14:30" : String).data
        = ['o', 'n', ' ', '1', '5', '-', '0', '8', '-', '2', '0', '2', '5', ' ', '1', '4', ':', '3', '0'] from rfl,
      show pyStrip ['o', 'n', ' ', '1', '5', '-', '0', '8', '-', '2', '0', '2', '5', ' ', '1', '4', ':', '3', '0']
        = ['o', 'n', ' ', '1', '5', '-', '0', '8', '-', '2', '0', '2', '5', ' ', '1', '4', ':', '3', '0'] from by decide,
      show searchP1 ['o', 'n', ' ', '1', '5', '-', '0', '8', '-', '2', '0', '2', '5', ' ', '1', '4', ':', '3', '0'] = none from by decide,
      show searchDateIdx 0 ['o', 'n', ' ', '1', '5', '-', '0', '8', '-', '2', '0', '2', '5', ' ', '1', '4', ':', '3', '0']
        = some (3, ['1', '5', '-', '0', '8', '-', '2', '0', '2', '5']) from by decide,
      show searchTimeTok ['o', 'n', ' ', '1', '5', '-', '0', '8', '-', '2', '0', '2', '5', ' ', '1', '4', ':', '3', '0']
        = some ['1', '4', ':', '3', '0'] from by decide,
      show pyStrip (['o', 'n', ' ', '1', '5', '-', '0', '8', '-', '2', '0', '2', '5', ' ', '1', '4', ':', '3', '0'].take 3)
        = ['o', 'n'] from by decide]
    rw [show removeFillers false ['o', 'n'] = [] from by
      rw [removeFillers]
      simp [firstFiller, fillerWords, ciMatch, lowerChar, boundaryOK, isWordChar]
      rw [removeFillers]]
    rw [show collapseWS [] = [] from by rw [collapseWS]]
    decide

end WAChatBooker
